import Mathlib

/-!
Verification development for the SopGenerator repository.

The Python sources (`src/agents.py`, `src/export.py`) are shallowly embedded
below.  Strings are modelled as Lean `String`s (lists of characters); Python
string helpers (`str.strip`, `str.lower`, `str.splitlines`, `str.join`) and
the few regular expressions the code uses are modelled by executable Lean
functions whose semantics follows the Python behaviour on the inputs the
program feeds them (ASCII-oriented whitespace / case classes, documented at
each definition).
-/

namespace SopGen

/-! ### Character classes (Python `str` semantics, ASCII-oriented model) -/

/-- Line boundary characters recognised by Python `str.splitlines`. -/
def isLineBreakChar (c : Char) : Bool :=
  c = '\n' || c = '\r' || c = '\x0b' || c = '\x0c' ||
  c = '\x1c' || c = '\x1d' || c = '\x1e' || c = '\x85' ||
  c = '\u2028' || c = '\u2029'

/-- Whitespace characters stripped by Python `str.strip()` and matched by the
regex class `\s` (ASCII part plus the common Unicode spaces). -/
def isPySpaceChar (c : Char) : Bool :=
  c = ' ' || c = '\t' || c = '\n' || c = '\r' || c = '\x0b' || c = '\x0c' ||
  c = '\x1c' || c = '\x1d' || c = '\x1e' || c = '\x1f' ||
  c = '\x85' || c = '\xa0' || c = '\u1680' ||
  c = '\u2000' || c = '\u2001' || c = '\u2002' || c = '\u2003' ||
  c = '\u2004' || c = '\u2005' || c = '\u2006' || c = '\u2007' ||
  c = '\u2008' || c = '\u2009' || c = '\u200a' ||
  c = '\u2028' || c = '\u2029' || c = '\u202f' || c = '\u205f' || c = '\u3000'

/-- ASCII lower-casing of one character (model of Python `str.lower` on the
ASCII inputs the program handles for the BLOCKER field). -/
def lowerChar (c : Char) : Char :=
  if 'A' ≤ c ∧ c ≤ 'Z' then Char.ofNat (c.toNat + 32) else c

/-! ### Python string helpers on `List Char` / `String` -/

/-- Data-level model of Python `str.strip()`: drop leading and trailing
whitespace. -/
def pyStripData (cs : List Char) : List Char :=
  ((cs.dropWhile isPySpaceChar).reverse.dropWhile isPySpaceChar).reverse

/-- Model of Python `str.strip()`. -/
def pyStrip (s : String) : String := ⟨pyStripData s.data⟩

/-- Model of Python `str.lower()` (ASCII). -/
def pyLower (s : String) : String := ⟨s.data.map lowerChar⟩

/-- Worker for `pySplitlines`: walk the characters, cutting at line
boundaries; `\r\n` counts as a single boundary; a trailing boundary does not
produce a final empty line (Python `str.splitlines`). -/
def splitlinesAux : List Char → List Char → List (List Char)
  | [], acc => if acc.isEmpty then [] else [acc.reverse]
  | '\r' :: '\n' :: cs2, acc => acc.reverse :: splitlinesAux cs2 []
  | c :: cs, acc =>
    if isLineBreakChar c then acc.reverse :: splitlinesAux cs []
    else splitlinesAux cs (c :: acc)

/-- Model of Python `str.splitlines()`. -/
def pySplitlines (s : String) : List String :=
  (splitlinesAux s.data []).map fun cs => ⟨cs⟩

/-- Model of Python `sep.join(parts)`. -/
def pyJoin (sep : String) : List String → String
  | [] => ""
  | [x] => x
  | x :: xs => x ++ sep ++ pyJoin sep xs

/-- Model of Python `s[:n]` (slicing by code points). -/
def pyTake (n : Nat) (s : String) : String := ⟨s.data.take n⟩

/-! ### Substring search (model of `re.search` for the literal-label patterns)

`searchAfter pat hay` returns the suffix of `hay` that follows the leftmost
occurrence of `pat`, or `none` when `pat` does not occur; this is exactly what
`re.search(r"LABEL:\s*(.*)", block)` needs: the leftmost match of such a
pattern starts at the leftmost occurrence of the literal label. -/

/-- Prefix test on character lists (no typeclass indirection, to keep proofs
by plain induction). -/
def isPre : List Char → List Char → Bool
  | [], _ => true
  | _ :: _, [] => false
  | p :: ps, c :: cs => p = c && isPre ps cs

/-- Suffix of `hay` after the leftmost occurrence of `pat` (`none` if `pat`
does not occur in `hay`). -/
def searchAfter (pat : List Char) : List Char → Option (List Char)
  | [] => if isPre pat [] then some [] else none
  | c :: t =>
    if isPre pat (c :: t) then some ((c :: t).drop pat.length)
    else searchAfter pat t

/-- Whether `pat` occurs in `hay` as a contiguous substring. -/
def occursIn (pat hay : List Char) : Bool := (searchAfter pat hay).isSome

/-- String-level substring test (used to state well-formedness side
conditions). -/
def containsSub (pat s : String) : Bool := occursIn pat.data s.data

/-- Model of `re.search(r"<label>\s*(.*)", block)` returning `group(1)`:
after the leftmost occurrence of the literal `label`, the greedy `\s*` skips
all whitespace (including newlines) and `(.*)` captures up to the next
newline. -/
def reSearchLabel (label : String) (block : String) : Option String :=
  match searchAfter label.data block.data with
  | none => none
  | some rest => some ⟨(rest.dropWhile isPySpaceChar).takeWhile (fun c => c ≠ '\n')⟩

/-! ### `re.split(r"(?=^ISSUE:\s*)", joined, flags=re.MULTILINE)`

The pattern is a zero-width lookahead, so the split points are exactly the
line-start positions where the literal `ISSUE:` begins; the chunk before each
split point keeps its trailing newline, and a match at position 0 yields a
leading empty chunk (CPython `re.split` semantics for zero-width patterns). -/

def issueMarker : List Char := "ISSUE:".data

/-- Worker: `acc` is the current chunk reversed, `atStart` records whether the
scan position is at a line start. After a cut, the marker character is
consumed into the new chunk, so a new cut can only occur after a later
newline, matching how `re.split` advances past a zero-width match. -/
def splitIssueAux : List Char → List Char → Bool → List (List Char)
  | [], acc, _ => [acc.reverse]
  | c :: rest, acc, atStart =>
    if atStart && isPre issueMarker (c :: rest) then
      acc.reverse :: splitIssueAux rest [c] false
    else
      splitIssueAux rest (c :: acc) (c = '\n')

/-- Model of the `re.split` call in `_parse_feedback`. -/
def splitAtIssue (s : String) : List String :=
  (splitIssueAux s.data [] true).map fun cs => ⟨cs⟩

/-! ### `_parse_feedback` (src/agents.py lines 176-199) -/

/-- One parsed feedback record (the dict built in `_parse_feedback`). -/
structure FeedbackItem where
  issue : String
  why : String
  fix : String
  blocker : String
deriving DecidableEq, Repr

/-- Body of the `for block in blocks` loop of `_parse_feedback`: skip blocks
that strip to the empty string, extract the first match of each of the four
label patterns, keep the block only if at least one label matched. -/
def parseBlock (block : String) : Option FeedbackItem :=
  if pyStrip block = "" then none
  else
    let issueM := reSearchLabel "ISSUE:" block
    let whyM := reSearchLabel "WHY:" block
    let fixM := reSearchLabel "FIX:" block
    let blockerM := reSearchLabel "BLOCKER:" block
    if issueM.isSome || whyM.isSome || fixM.isSome || blockerM.isSome then
      some
        { issue := pyStrip (issueM.getD "")
          why := pyStrip (whyM.getD "")
          fix := pyStrip (fixM.getD "")
          blocker := pyStrip (match blockerM with
            | some b => pyLower (pyStrip b)
            | none => "no") }
    else none

/-- Model of `_parse_feedback`: empty input or the `STATUS: OK` sentinel give
the empty list; otherwise the non-empty stripped lines are re-joined, split at
line-initial `ISSUE:` markers, and each chunk is parsed by `parseBlock`. -/
def parse_feedback (text : String) : List FeedbackItem :=
  if text = "" || pyStrip text = "STATUS: OK" then []
  else
    let lines := ((pySplitlines text).filter fun l => pyStrip l ≠ "").map pyStrip
    let joined := pyJoin "\n" lines
    let blocks := splitAtIssue joined
    blocks.filterMap parseBlock

/-! ### Well-formed critiques (for the `_parse_feedback` contract)

A critique text is *well formed* when it is a sequence of stripped, non-empty
single lines: an optional label-free preamble followed by blocks, each block
an `ISSUE: <text>` line and then optional `WHY:`/`FIX:`/`BLOCKER:` lines,
where no field text contains a line break or any of the four labels. -/

/-- The four label literals of the critique grammar. -/
def labelStrings : List String := ["ISSUE:", "WHY:", "FIX:", "BLOCKER:"]

/-- A string with no line-boundary characters (defined later for the
renderer as well; kept separate here to keep the parser section
self-contained). -/
def singleLineStr (s : String) : Bool := s.data.all fun c => !(isLineBreakChar c)

/-- A clean token: stripped, non-empty, a single line, containing none of the
four labels. -/
def cleanTok (s : String) : Bool :=
  decide (pyStrip s = s) && decide (s ≠ "") && singleLineStr s &&
    labelStrings.all fun lab => !(containsSub lab s)

/-- A well-formed critique block before rendering. -/
structure RawBlock where
  issue : String
  why : Option String
  fix : Option String
  blocker : Option String
deriving DecidableEq, Repr

def optClean : Option String → Bool
  | none => true
  | some t => cleanTok t

def WFBlock (b : RawBlock) : Bool :=
  cleanTok b.issue && optClean b.why && optClean b.fix && optClean b.blocker

def optLabelLine (lab : String) : Option String → List String
  | none => []
  | some t => [lab ++ t]

/-- The text lines of one rendered block. -/
def renderBlockLines (b : RawBlock) : List String :=
  ("ISSUE: " ++ b.issue) ::
    (optLabelLine "WHY: " b.why ++ optLabelLine "FIX: " b.fix ++
      optLabelLine "BLOCKER: " b.blocker)

/-- A critique text with a label-free preamble and a sequence of blocks. -/
def renderCritique (pre : List String) (bs : List RawBlock) : String :=
  pyJoin "\n" (pre ++ (bs.map renderBlockLines).join)

/-- The item `_parse_feedback` is expected to produce from a well-formed
block: absent WHY/FIX become the empty string, an absent BLOCKER defaults to
`no`, a present BLOCKER is lower-cased (and trimmed). -/
def expectedItem (b : RawBlock) : FeedbackItem :=
  { issue := b.issue
    why := b.why.getD ""
    fix := b.fix.getD ""
    blocker := match b.blocker with
      | some t => pyStrip (pyLower t)
      | none => "no" }

/-- A rendered line, decomposed as label literal plus field text (the
preamble lines use the empty literal). -/
abbrev Seg : Type := List Char × String

def segLineData (sg : Seg) : List Char := sg.1 ++ sg.2.data

/-- The (at most one) segment of an optional labelled line. -/
def optSegL (lit : List Char) : Option String → List Seg
  | none => []
  | some t => [(lit, t)]

/-- The segments of one rendered block. -/
def segsOf (b : RawBlock) : List Seg :=
  ("ISSUE: ".data, b.issue) ::
    (optSegL "WHY: ".data b.why ++ optSegL "FIX: ".data b.fix ++
      optSegL "BLOCKER: ".data b.blocker)

/-- Join character lines with newlines. -/
def joinNl : List (List Char) → List Char
  | [] => []
  | [x] => x
  | x :: xs => x ++ '\n' :: joinNl xs

/-- Character content of one block chunk (no trailing newline). -/
def blockChars (b : RawBlock) : List Char := joinNl ((segsOf b).map segLineData)

/-- The chunk strings `re.split` produces for a non-empty block sequence:
every chunk but the last keeps its trailing newline. -/
def chunkList : List RawBlock → List (List Char)
  | [] => []
  | [b] => [blockChars b]
  | b :: rest => (blockChars b ++ ['\n']) :: chunkList rest

/-- The characters that follow a segment list inside a chunk: nothing when the
list is empty, otherwise a newline and the joined remaining lines. -/
def nlTail (segs : List Seg) (r : List Char) : List Char :=
  match segs with
  | [] => r
  | _ :: _ => '\n' :: (joinNl (segs.map segLineData) ++ r)

/-- A pattern with no newline character. -/
def noNewline (pat : List Char) : Bool := pat.all fun c => decide (c ≠ '\n')

/-- Structural mismatch of `pat` against the concrete part `s`: if true,
`pat` is a prefix of no extension of `s`. -/
def mismatchIn : List Char → List Char → Bool
  | p :: ps, c :: cs => decide (p ≠ c) || mismatchIn ps cs
  | _, _ => false

/-- `pat` mismatches at every start offset inside `lit`. -/
def litSkips (pat : List Char) : List Char → Bool
  | [] => true
  | c :: rest => mismatchIn pat (c :: rest) && litSkips pat rest

/-- A segment the search for `pat` passes over: `pat` mismatches at every
offset of the label literal and does not occur in the field text. -/
def skipSeg (pat : List Char) (sg : Seg) : Prop :=
  litSkips pat sg.1 = true ∧ searchAfter pat sg.2.data = none

/-! ## Document renderer (src/export.py)

`_convert_markdown_to_doc` is modelled as a pure function from the markdown
text to the list of document elements it appends to the DOCX body.  A heading
element keeps the computed dotted `number` and the cleaned `text` separately;
the paragraph run the code adds is `number ++ " " ++ text`.  Picture embedding
(`os.path.exists` + `doc.add_picture`) is filesystem-dependent and not part of
the element list; the caption paragraph, which the code adds unconditionally,
is. -/

/-- Model of the heading regex `^(#{1,6})\s+(.*)$` (on a single line, as
produced by `splitlines`): 1-6 leading hashes followed by at least one
whitespace character; returns the depth and `group(2).strip()`. -/
def matchHeading (line : String) : Option (Nat × String) :=
  let cs := line.data
  let h := (cs.takeWhile fun c => c = '#').length
  if 1 ≤ h ∧ h ≤ 6 then
    match cs.drop h with
    | [] => none
    | c :: rest => if isPySpaceChar c then some (h, pyStrip ⟨c :: rest⟩) else none
  else none

/-- Consume a maximal run of decimal digits. -/
def skipDigits : List Char → List Char
  | c :: rest => if c.isDigit then skipDigits rest else c :: rest
  | [] => []

/-- Fuelled worker for `numPrefixGroups` (each step consumes at least two
characters, so `fuel = cs.length` never runs out, see
`numPrefixGroupsF_fuel_irrel`; fuel makes the recursion structural and hence
kernel-reducible). -/
def numPrefixGroupsF : Nat → List Char → List Char
  | 0, cs => cs
  | fuel + 1, cs =>
    match cs with
    | c1 :: c2 :: rest =>
      if c1 = '.' ∧ c2.isDigit then numPrefixGroupsF fuel (skipDigits rest) else cs
    | _ => cs

/-- Consume the greedy `(\.\d+)*` groups of the numeric-prefix regex: while
a `.` followed by a digit is ahead, consume the dot and the digit run. -/
def numPrefixGroups (cs : List Char) : List Char := numPrefixGroupsF cs.length cs

/-- Model of `re.sub(r"^\d+(?:\.\d+)*\.?\s+", "", text)` used to strip a
pre-existing numeric prefix from a heading (greedy matching; no backtracking
case changes the outcome for this pattern). -/
def stripNumPrefixData (cs : List Char) : List Char :=
  let ds := cs.takeWhile Char.isDigit
  if ds.isEmpty then cs
  else
    match numPrefixGroups (cs.drop ds.length) with
    | '.' :: c :: r2 =>
      if isPySpaceChar c then (c :: r2).dropWhile isPySpaceChar else cs
    | c :: r =>
      if isPySpaceChar c then (c :: r).dropWhile isPySpaceChar else cs
    | [] => cs

/-- Drop leading regex-`\s` whitespace. -/
def dropSpaces (cs : List Char) : List Char := cs.dropWhile isPySpaceChar

/-- Consume a maximal run of dashes. -/
def skipDashes : List Char → List Char
  | c :: rest => if c = '-' then skipDashes rest else c :: rest
  | [] => []

/-- Consume a dash run with its optional trailing colon: `[-]+:?`; `none`
when there is no dash here. -/
def eatDashCore : List Char → Option (List Char)
  | '-' :: rest =>
    match skipDashes rest with
    | ':' :: r2 => some r2
    | r => some r
  | _ => none

/-- Consume `:?[-]+:?`: a leading colon is taken only when a dash follows
(the regex backtracks out of `:?` otherwise). -/
def eatDashGroup (cs : List Char) : Option (List Char) :=
  match cs with
  | ':' :: '-' :: rest => eatDashCore ('-' :: rest)
  | _ => eatDashCore cs

/-- Fuelled worker for `eatSepGroups` (each step consumes at least the `|`
character, so `fuel = cs.length` never runs out). -/
def eatSepGroupsF : Nat → List Char → Nat → Nat × List Char
  | 0, cs, n => (n, cs)
  | fuel + 1, cs, n =>
    match cs with
    | '|' :: rest =>
      match eatDashGroup (dropSpaces rest) with
      | some r => eatSepGroupsF fuel (dropSpaces r) (n + 1)
      | none => (n, '|' :: rest)
    | cs => (n, cs)

/-- Count and consume the `(\|\s*:?[-]+:?\s*)+` groups. -/
def eatSepGroups (cs : List Char) (n : Nat) : Nat × List Char :=
  eatSepGroupsF cs.length cs n

/-- Model of `_is_table_separator`: the regex
`^\s*\|?\s*:?[-]+:?\s*(\|\s*:?[-]+:?\s*)+\|?\s*$` (note it requires at
least two dash groups). -/
def is_table_separator (line : String) : Bool :=
  let cs := dropSpaces line.data
  let cs := match cs with
    | '|' :: rest => dropSpaces rest
    | _ => cs
  match eatDashGroup cs with
  | none => false
  | some r =>
    let gr := eatSepGroups (dropSpaces r) 0
    if gr.1 = 0 then false
    else
      let rest := match gr.2 with
        | '|' :: r2 => r2
        | r2 => r2
      (dropSpaces rest).isEmpty

/-- Split at the first occurrence of the two-character sequence `](`. -/
def splitFirstBrackParen : List Char → Option (List Char × List Char)
  | [] => none
  | ']' :: '(' :: rest => some ([], rest)
  | c :: rest => (splitFirstBrackParen rest).map fun p => (c :: p.1, p.2)

/-- Model of the figure regex `^!\[(.*?)\]\((.*?)\)$`: the line must start
with `![`, end with `)`, and split at the first `](`; returns
(caption, path). -/
def matchFigure (line : String) : Option (String × String) :=
  match line.data with
  | '!' :: '[' :: rest =>
    if rest.getLast? = some ')' then
      match splitFirstBrackParen rest.dropLast with
      | some (cap, path) => some (⟨cap⟩, ⟨path⟩)
      | none => none
    else none
  | _ => none

/-- Model of the unordered-list test `re.match(r"^\s*[-*]\s+", line)`. -/
def isBulletLine (line : String) : Bool :=
  match dropSpaces line.data with
  | c :: c2 :: _ => (c = '-' || c = '*') && isPySpaceChar c2
  | _ => false

/-- Model of the ordered-list test-and-strip
`re.sub(r"^\s*\d+[\.)]\s+", "", line)`: returns the remainder when the line
matches, `none` otherwise. -/
def matchNumListRest (line : String) : Option String :=
  let cs := dropSpaces line.data
  let ds := cs.takeWhile Char.isDigit
  if ds.isEmpty then none
  else
    match cs.drop ds.length with
    | c :: c2 :: rest =>
      if (c = '.' || c = ')') && isPySpaceChar c2 then
        some ⟨(c2 :: rest).dropWhile isPySpaceChar⟩
      else none
    | _ => none

/-- Model of the footnote test `re.match(r"^\[\^\d+\]:", line)`. -/
def isFootnoteLine (line : String) : Bool :=
  match line.data with
  | '[' :: '^' :: rest =>
    let ds := rest.takeWhile Char.isDigit
    if ds.isEmpty then false
    else
      match rest.drop ds.length with
      | ']' :: ':' :: _ => true
      | _ => false
  | _ => false

/-- Increment the last entry of the counter stack (`sec_nums[-1] += 1`). -/
def incLast : List Nat → List Nat
  | [] => []
  | [n] => [n + 1]
  | n :: rest => n :: incLast rest

/-- Counter-stack update for a heading of depth `level`: pad with zeros while
shorter (`while len < level: append 0`), pop while longer
(`while len > level: pop`), then increment the last entry.  The subsequent
Python loop `for j in range(level, len(sec_nums))` is vacuous because the
stack now has exactly `level` entries. -/
def updateSecNums (sec : List Nat) (level : Nat) : List Nat :=
  incLast ((sec ++ List.replicate (level - sec.length) 0).take level)

/-- Split on a separator character (Python `str.split(sep)` with an explicit
separator: `"" → [""]`, separators at the ends produce empty fields). -/
def splitCharAux (sep : Char) : List Char → List Char → List (List Char)
  | [], acc => [acc.reverse]
  | c :: cs, acc =>
    if c = sep then acc.reverse :: splitCharAux sep cs []
    else splitCharAux sep cs (c :: acc)

def pySplitChar (sep : Char) (s : String) : List String :=
  (splitCharAux sep s.data []).map fun cs => ⟨cs⟩

/-- Model of `str.startswith(pre)`. -/
def strStartsWith (s pre : String) : Bool := isPre pre.data s.data

/-- Strip all leading and trailing `|` characters (Python `str.strip('|')`). -/
def pyStripPipes (s : String) : String :=
  ⟨((s.data.dropWhile fun c => c = '|').reverse.dropWhile fun c => c = '|').reverse⟩

/-- One table row: `[c.strip() for c in line.strip().strip('|').split('|')]`. -/
def splitRowCells (line : String) : List String :=
  (pySplitChar '|' (pyStripPipes (pyStrip line))).map pyStrip

/-- Model of `_parse_markdown_table`, consuming lines from the current
position: header row, optional separator line, then all directly following
pipe-prefixed rows; returns (rows, remaining lines). -/
def parse_markdown_table : List String → List (List String) × List String
  | [] => ([], [])
  | l :: rest =>
    let rest1 := match rest with
      | r :: t => if is_table_separator r then t else r :: t
      | [] => []
    let spanned := rest1.span fun ln => strStartsWith (pyStrip ln) "|"
    (splitRowCells l :: spanned.1.map splitRowCells, spanned.2)

/-- One element the renderer appends to the document body. -/
inductive DocElem where
  | heading (styleLevel : Nat) (number : String) (text : String)
  | table (rows : List (List String))
  | tableCaption (text : String)
  | figureCaption (text : String)
  | listBullet (text : String)
  | listNumber (text : String)
  | footnote (text : String)
  | para (text : String)
deriving DecidableEq, Repr

/-- Whether the line after the current one is a table separator
(`i + 1 < len(lines) and _is_table_separator(lines[i + 1])`). -/
def nextIsSeparator : List String → Bool
  | [] => false
  | r :: _ => is_table_separator r

/-- First header cell used in the table caption
(`rows[0][0] if rows and rows[0] else ''`). -/
def firstHeaderCell : List (List String) → String
  | (c :: _) :: _ => c
  | _ => ""

/-- Fuelled worker for the main line loop of `_convert_markdown_to_doc`
(branch order as in the source: heading, table, figure, bullet list, numbered
list, footnote, blank, paragraph).  State: heading counter stack, table
counter, figure counter.  Every iteration consumes at least the current line,
so `fuel = lines.length` never runs out (`renderFuel_fuel_irrel`); fuel makes
the recursion structural and hence kernel-reducible. -/
def renderFuel : Nat → List Nat → Nat → Nat → List String → List DocElem
  | 0, _, _, _, _ => []
  | _ + 1, _, _, _, [] => []
  | fuel + 1, secNums, tableC, figC, line :: rest =>
    match matchHeading line with
    | some (level, text) =>
      let sn := updateSecNums secNums level
      let number := pyJoin "." ((sn.filter fun n => decide (0 < n)).map Nat.repr)
      let text2 : String := ⟨stripNumPrefixData text.data⟩
      DocElem.heading (min level 3) number text2 :: renderFuel fuel sn tableC figC rest
    | none =>
      if strStartsWith (pyStrip line) "|" && nextIsSeparator rest then
        let pr := parse_markdown_table (line :: rest)
        DocElem.table pr.1 ::
          DocElem.tableCaption ("Таблица " ++ Nat.repr (tableC + 1) ++ ": " ++ firstHeaderCell pr.1) ::
          renderFuel fuel secNums (tableC + 1) figC pr.2
      else
        match matchFigure line with
        | some (caption, _path) =>
          DocElem.figureCaption ("Рисунок " ++ Nat.repr (figC + 1) ++ ": " ++ caption) ::
            renderFuel fuel secNums tableC (figC + 1) rest
        | none =>
          if isBulletLine line then
            DocElem.listBullet (pyStrip ⟨(pyStrip line).data.drop 1⟩) ::
              renderFuel fuel secNums tableC figC rest
          else
            match matchNumListRest line with
            | some content => DocElem.listNumber content :: renderFuel fuel secNums tableC figC rest
            | none =>
              if isFootnoteLine line then
                DocElem.footnote line :: renderFuel fuel secNums tableC figC rest
              else if pyStrip line = "" then
                DocElem.para "" :: renderFuel fuel secNums tableC figC rest
              else
                DocElem.para line :: renderFuel fuel secNums tableC figC rest

/-- The main line loop of `_convert_markdown_to_doc`, at its exact fuel. -/
def renderAux (secNums : List Nat) (tableC figC : Nat) (ls : List String) : List DocElem :=
  renderFuel ls.length secNums tableC figC ls

/-- Model of `_convert_markdown_to_doc` (the markdown text is first split into
lines; `_iter_markdown_lines` yields `splitlines` output). -/
def convert_markdown_to_doc (md : String) : List DocElem :=
  renderAux [] 0 0 (pySplitlines md)

/-- The dotted numbers of the heading elements, in emission order. -/
def headingNumbers (elems : List DocElem) : List String :=
  elems.filterMap fun e => match e with
    | DocElem.heading _ n _ => some n
    | _ => none

/-- The table captions, in emission order. -/
def tableCaptions (elems : List DocElem) : List String :=
  elems.filterMap fun e => match e with
    | DocElem.tableCaption t => some t
    | _ => none

/-- The figure captions, in emission order. -/
def figureCaptions (elems : List DocElem) : List String :=
  elems.filterMap fun e => match e with
    | DocElem.figureCaption t => some t
    | _ => none

/-! ## Transport client (src/agents.py, `call_llm` and `_post_once`)

The network is abstracted: `_post_once`'s HTTP exchange is modelled in two
ways.  `post_once` maps the HTTP response actually received to the
success/raise behaviour of the Python function; `call_llm` is parameterised
by an oracle `post : url → payload → Except error content` standing for one
`_post_once` invocation, and additionally returns the list of (url, payload)
requests it attempted, in order, as observable instrumentation of the
fallback cascade.  `time.sleep` between the two outer attempts has no
observable effect in the model. -/

/-- One chat message (`{"role": ..., "content": ...}`). -/
structure Msg where
  role : String
  content : String
deriving DecidableEq, Repr

instance instDecEqExcept {e a : Type} [DecidableEq e] [DecidableEq a] :
    DecidableEq (Except e a) := fun x y =>
  match x, y with
  | Except.ok v, Except.ok w =>
    if h : v = w then isTrue (by rw [h]) else isFalse (fun hh => h (Except.ok.inj hh))
  | Except.error v, Except.error w =>
    if h : v = w then isTrue (by rw [h]) else isFalse (fun hh => h (Except.error.inj hh))
  | Except.ok _, Except.error _ => isFalse (fun hh => Except.noConfusion hh)
  | Except.error _, Except.ok _ => isFalse (fun hh => Except.noConfusion hh)

/-- One segment of typed content (`{"type": "text", "text": ...}`). -/
structure TypedSeg where
  type : String
  text : String
deriving DecidableEq, Repr

/-- One typed-content message. -/
structure TypedMsg where
  role : String
  content : List TypedSeg
deriving DecidableEq, Repr

/-- The `messages` part of a request payload: plain or typed shape. -/
inductive PayloadMsgs where
  | plain (msgs : List Msg)
  | typed (msgs : List TypedMsg)
deriving DecidableEq, Repr

/-- A request body (`{model, messages, max_tokens, temperature: 0,
stream: false}`). -/
structure Payload where
  model : String
  messages : PayloadMsgs
  max_tokens : Nat
  temperature : Nat
  stream : Bool
deriving DecidableEq, Repr

/-- `MODEL_NAME` (the `LLM_MODEL` environment default). -/
def modelName : String := "llama4scout"

/-- `API_BASE`. -/
def apiBase : String := "https://lzl4i1wx0cdh9a-8000.proxy.runpod.net/v1"

/-- `API_URLS`. -/
def apiUrls : List String := [apiBase ++ "/chat/completions", apiBase ++ "/completions"]

/-- `_payload_plain`. -/
def payload_plain (msgs : List Msg) (tokens : Nat) : Payload :=
  ⟨modelName, PayloadMsgs.plain msgs, tokens, 0, false⟩

/-- The per-message conversion inside `_payload_typed`: an empty role falls
back to `"user"` (Python `m.get("role") or "user"`); the content string is
wrapped as a single text segment (`m.get("content") or ""` is the identity in
this total model). -/
def toTypedMsg (m : Msg) : TypedMsg :=
  ⟨(if m.role = "" then "user" else m.role), [⟨"text", m.content⟩]⟩

/-- `_payload_typed`. -/
def payload_typed (msgs : List Msg) (tokens : Nat) : Payload :=
  ⟨modelName, PayloadMsgs.typed (msgs.map toTypedMsg), tokens, 0, false⟩

/-- The minimized conversation of the third/fourth tiers: the first message
when its role is `"system"`, plus the last message. -/
def minimalMsgs (messages : List Msg) : List Msg :=
  (match messages with
   | m :: _ => if m.role = "system" then [m] else []
   | [] => []) ++
  (match messages.getLast? with
   | some l => [l]
   | none => [])

/-- The body of the JSON response: the `message` value of `choices[0]`, which
may be absent/null, a dict with an optional `content` string, or a non-dict
value (a string). -/
inductive MsgField where
  | absent
  | mdict (content : Option String)
  | mstr (s : String)
deriving DecidableEq, Repr

/-- One entry of `choices`. -/
structure Choice where
  message : MsgField
  text : Option String
deriving DecidableEq, Repr

/-- The `{}` default entry of `resp_json.get("choices", [{}])`. -/
def defaultChoice : Choice := ⟨MsgField.absent, none⟩

/-- A parsed response body; `choices = none` models an absent `choices` key
(replaced by the default `[{}]`). -/
structure RespJson where
  choices : Option (List Choice)
deriving DecidableEq, Repr

/-- Model of `_extract_content`.  `none` models the `IndexError` raised by
`choices[0]` on an empty list.  A falsy `message` (absent, null, empty dict,
empty string) is replaced by `{}`, which is a dict, so the chat branch
returns its (empty) content; the legacy `text` branch is reached only for a
truthy non-dict `message`. -/
def extract_content (j : RespJson) : Option String :=
  match j.choices.getD [defaultChoice] with
  | [] => none
  | c :: _ =>
    match c.message with
    | MsgField.mstr s => if s = "" then some (pyStrip "") else some (pyStrip (c.text.getD ""))
    | MsgField.mdict co => some (pyStrip (co.getD ""))
    | MsgField.absent => some (pyStrip "")

/-- An HTTP response as seen by `_post_once`: status code, parsed JSON body
(`none` when `resp.json()` raises), and raw text. -/
structure HttpResp where
  status_code : Nat
  json : Option RespJson
  text : String
deriving DecidableEq, Repr

/-- Model of `_post_once` as a function of the response the POST produced:
a 200 with unparseable JSON raises, a 200 whose extracted content is empty
raises, any non-200 status raises; only a 200 with non-empty extracted
content returns it. -/
def post_once (url : String) (resp : HttpResp) : Except String String :=
  if resp.status_code = 200 then
    match resp.json with
    | none => Except.error ("LLM returned non-JSON: " ++ pyTake 200 resp.text)
    | some data =>
      match extract_content data with
      | none => Except.error "IndexError: list index out of range"
      | some content =>
        if content = "" then
          Except.error ("LLM empty content. Raw response: " ++ pyTake 400 resp.text)
        else Except.ok content
  else
    Except.error ("LLM error " ++ url ++ ": " ++ Nat.repr resp.status_code ++ " " ++ resp.text)

/-- The four nested try/except tiers of `call_llm` for one URL: plain, typed,
minimized-plain, minimized-typed; returns the outcome together with the list
of requests attempted. -/
def tryTiersAt (post : String → Payload → Except String String) (url : String)
    (messages : List Msg) (max_tokens : Nat) :
    Except String String × List (String × Payload) :=
  let p1 := payload_plain messages max_tokens
  match post url p1 with
  | Except.ok c => (Except.ok c, [(url, p1)])
  | Except.error _ =>
    let p2 := payload_typed messages max_tokens
    match post url p2 with
    | Except.ok c => (Except.ok c, [(url, p1), (url, p2)])
    | Except.error _ =>
      let mm := minimalMsgs messages
      let small_tokens := min 800 max_tokens
      let p3 := payload_plain mm small_tokens
      match post url p3 with
      | Except.ok c => (Except.ok c, [(url, p1), (url, p2), (url, p3)])
      | Except.error _ =>
        let p4 := payload_typed mm small_tokens
        match post url p4 with
        | Except.ok c => (Except.ok c, [(url, p1), (url, p2), (url, p3), (url, p4)])
        | Except.error e4 => (Except.error e4, [(url, p1), (url, p2), (url, p3), (url, p4)])

/-- The URL/attempt loop of `call_llm`: the URL list is traversed for each of
the two outer attempts, threading the last error. -/
def callLLMUrls (post : String → Payload → Except String String)
    (messages : List Msg) (max_tokens : Nat) :
    List String → String → Except String String × List (String × Payload)
  | [], lastErr =>
    (Except.error ("Connection to LLM failed after retries: " ++ lastErr), [])
  | url :: rest, lastErr =>
    match tryTiersAt post url messages max_tokens with
    | (Except.ok c, tr) => (Except.ok c, tr)
    | (Except.error e, tr) =>
      let r := callLLMUrls post messages max_tokens rest e
      (r.1, tr ++ r.2)

/-- Model of `call_llm` over the `post` oracle: two outer attempts over
`API_URLS`, four tiers per URL; also returns the attempted requests.
`timeout_read` only parameterises the network call and has no further effect
here. -/
def call_llm (post : String → Payload → Except String String)
    (messages : List Msg) (max_tokens : Nat) (timeout_read : Nat) :
    Except String String × List (String × Payload) :=
  let _ := timeout_read
  callLLMUrls post messages max_tokens (apiUrls ++ apiUrls) "None"

/-! ## Generation pipeline (src/agents.py, `_manual_pipeline` and friends)

The pipeline is parameterised by `llm : messages → max_tokens → timeout_read
→ Except error content`, standing for `call_llm` over the real network; an
`Except.error` models a raised exception. -/

/-- `WRITER_SYSTEM`. -/
def WRITER_SYSTEM : String :=
  "You are the Writer Agent for SOP generation. Produce a rigorous, fully formatted SOP draft in Markdown.\n" ++
  "CRITICAL: Write in Russian language (русский язык) unless user explicitly requests another language.\n" ++
  "Rules and formatting requirements (strictly follow):\n" ++
  "- Page: A4; Margins: 1 inch (25.4 mm).\n" ++
  "- Font: Times New Roman or Arial; Size: 11–14; Single line spacing.\n" ++
  "- Structure: Numbered sections and subsections (e.g., 1, 1.1, 1.1.1).\n" ++
  "- Include: Title page, Approval sheet, Change log, Acknowledgement sheet.\n" ++
  "- Include: Scope, Responsibilities, Definitions, Procedure/Steps, Equipment/Materials, Periodicities, Calibration, Safety, References.\n" ++
  "- Tables and figures must have correct captions (Table X: Title, Figure X: Title).\n" ++
  "- Appendices must be numbered (Appendix A, B, ...).\n" ++
  "- Use footnotes where necessary (mark as [^n]: footnote).\n" ++
  "Output only a complete SOP draft in Markdown, no extra commentary.\n"

/-- `CRITIC_SYSTEM`. -/
def CRITIC_SYSTEM : String :=
  "You are the Critic Agent for SOP QA. You must review the SOP and return structured feedback strictly with the following keys per issue:\n" ++
  "ISSUE: <short title>\n" ++
  "WHY: <why this is a problem with reference to the rules>\n" ++
  "FIX: <clear actionable fix>\n" ++
  "BLOCKER: <yes|no>\n\n" ++
  "- If there are no blockers remaining, return exactly `STATUS: OK` and nothing else.\n" ++
  "- Be precise, reference missing structure, numbering, captions, formatting, or non-compliant text.\n"

/-- One conversation log entry (`{"name": ..., "content": ...}`). -/
structure ConvEntry where
  name : String
  content : String
deriving DecidableEq, Repr

/-- Model of the numbered-heading match in `_extract_top_level_headings`
(`re.match(r"^(\d+)(?:\.\d+)*\.?\s+(.+)$", line)` applied to the already
stripped line): returns `f"{num}. {text}"`. -/
def matchOutlineHeading (line : String) : Option String :=
  let cs := line.data
  let ds := cs.takeWhile Char.isDigit
  if ds.isEmpty then none
  else
    match numPrefixGroups (cs.drop ds.length) with
    | '.' :: c :: r2 =>
      if isPySpaceChar c then
        let rest := (c :: r2).dropWhile isPySpaceChar
        if rest.isEmpty then none else some (String.mk ds ++ ". " ++ String.mk rest)
      else none
    | c :: r =>
      if isPySpaceChar c then
        let rest := (c :: r).dropWhile isPySpaceChar
        if rest.isEmpty then none else some (String.mk ds ++ ". " ++ String.mk rest)
      else none
    | [] => none

/-- The order-preserving de-duplication loop of `_extract_top_level_headings`
(`seen` set). -/
def dedupAux : List String → List String → List String
  | [], _ => []
  | h :: t, seen =>
    if seen.contains h then dedupAux t seen else h :: dedupAux t (h :: seen)

/-- Model of `_extract_top_level_headings`. -/
def extract_top_level_headings (outline_md : String) : List String :=
  let headings := (pySplitlines outline_md).filterMap fun line =>
    matchOutlineHeading (pyStrip line)
  (dedupAux headings []).take 8

/-- Model of Python `a or b` on strings (empty string is falsy). -/
def orDefault (a b : String) : String := if a = "" then b else a

/-- The structured input fields (`input_data`); every `data.get(k) or ""` is
a total string field here. -/
structure SourceDoc where
  name : String
  preview : String
deriving DecidableEq, Repr

structure InputData where
  title : String
  sop_number : String
  equipment_type : String
  content_type : String
  sections : String
  structure_description : String
  structure_text : String
  scope : String
  responsibilities : String
  definitions : String
  equipment : String
  procedure : String
  periodicities : String
  calibration : String
  safety : String
  references : String
  notes : String
  source_docs : List SourceDoc
deriving DecidableEq, Repr

/-- The all-empty input record. -/
def emptyInput : InputData :=
  ⟨"", "", "", "", "", "", "", "", "", "", "", "", "", "", "", "", "", []⟩

/-- Model of `_rule_based_sop`. -/
def rule_based_sop (data : InputData) : String :=
  let title := orDefault (pyStrip data.title) "Стандартная операционная процедура"
  let scope := orDefault (pyStrip data.scope) (pyStrip data.sections)
  let responsibilities := orDefault (pyStrip data.responsibilities)
    "Ответственные лица определяются руководителем подразделения."
  let definitions := orDefault (pyStrip data.definitions)
    "Термины и определения приводятся при необходимости."
  let equipment := orDefault (pyStrip data.equipment) (pyStrip data.equipment_type)
  let procedure := orDefault (pyStrip data.procedure)
    "Пошаговое описание процедуры согласно внутренним регламентам."
  let periodicities := orDefault (pyStrip data.periodicities)
    "Периодичность выполняемых операций согласно графику."
  let calibration := orDefault (pyStrip data.calibration)
    "Калибровка проводится согласно паспорту оборудования и внутренним инструкциям."
  let safety := orDefault (pyStrip data.safety)
    "Соблюдать технику безопасности и охрану труда."
  let references := orDefault (pyStrip data.references)
    "Внутренние регламенты, стандарты, НПА."
  let md : List String :=
    ["# " ++ title, "",
     "## 1. Область применения",
     orDefault scope "Описание области применения и ограничений.", "",
     "## 2. Ответственность", responsibilities, "",
     "## 3. Определения", definitions, "",
     "## 4. Оборудование и материалы"] ++
    (if equipment ≠ "" then
      ["| Наименование | Модель/Тип | Калибровка | Примечание |",
       "| --- | --- | --- | --- |",
       "| " ++ equipment ++ " | — | По графику | — |"]
     else ["См. перечень оборудования в приложении A."]) ++
    ["",
     "## 5. Порядок выполнения работ", procedure, "",
     "## 6. Периодичность", periodicities, "",
     "## 7. Калибровка и поверка", calibration, "",
     "## 8. Требования безопасности", safety, "",
     "## 9. Ссылки", references, "",
     "## 10. Приложения", "Приложение A — Формы записей и журналы.", "",
     "[^1]: Данный документ сформирован автоматически и требует проверки ответственным лицом."]
  pyJoin "\n" md

/-- ASCII upper-casing of one character. -/
def upperChar (c : Char) : Char :=
  if 'a' ≤ c ∧ c ≤ 'z' then Char.ofNat (c.toNat - 32) else c

/-- Model of Python `str.title()` (ASCII): upper-case at word starts,
lower-case elsewhere. -/
def pyTitleData : List Char → Bool → List Char
  | [], _ => []
  | c :: rest, prevAlpha =>
    (if prevAlpha then lowerChar c else upperChar c) :: pyTitleData rest c.isAlpha

def pyTitle (s : String) : String := ⟨pyTitleData s.data false⟩

/-- One line of the `[ИСТОЧНИКИ]` block. -/
def sourceLine (i : Nat) (sd : SourceDoc) : String :=
  let name := pyStrip (orDefault sd.name ("Источник " ++ Nat.repr i))
  let preview0 := pyStrip sd.preview
  let preview := if preview0 ≠ "" then pyTake 2000 preview0 else preview0
  "- " ++ name ++ ": " ++ preview

/-- The ordered field keys of the per-field loop in
`format_input_data_to_prompt`, with their values. -/
def keyedFields (data : InputData) : List (String × String) :=
  [("scope", data.scope), ("responsibilities", data.responsibilities),
   ("definitions", data.definitions), ("equipment", data.equipment),
   ("procedure", data.procedure), ("periodicities", data.periodicities),
   ("calibration", data.calibration), ("safety", data.safety),
   ("references", data.references), ("notes", data.notes)]

/-- Model of `format_input_data_to_prompt`. -/
def format_input_data_to_prompt (data : InputData) : String :=
  let source_block := pyJoin "\n"
    ((data.source_docs.enum).map fun p => sourceLine (p.1 + 1) p.2)
  let structure_text := pyStrip data.structure_text
  let structure_desc := pyStrip data.structure_description
  let content_type := pyStrip data.content_type
  let parts : List String :=
    ["Сгенерируй полный проект стандартной операционной процедуры (SOP) на русском языке, строго соблюдая правила форматирования.\n",
     "[МЕТАДАННЫЕ]\n",
     "Название: " ++ pyStrip data.title ++ "\n",
     "Номер: " ++ pyStrip data.sop_number ++ "\n",
     "Тип оборудования: " ++ pyStrip data.equipment_type ++ "\n",
     "Тип содержимого: " ++ content_type ++ "\n",
     "[/МЕТАДАННЫЕ]\n\n",
     "[ТЕКСТ ВВОДА]", "\n",
     "Разделы/описание: " ++ pyStrip data.sections ++ "\n",
     "Описание структуры: " ++ structure_desc ++ "\n",
     "[/ТЕКСТ ВВОДА]\n\n"] ++
    (if source_block ≠ "" then
      ["[ИСТОЧНИКИ]\n", source_block, "\n[/ИСТОЧНИКИ]\n\n"] else []) ++
    (if structure_text ≠ "" then
      ["[ИЗВЛЕЧЕННАЯ СТРУКТУРА ДОКУМЕНТА]\n", pyTake 4000 structure_text,
       "\n[/ИЗВЛЕЧЕННАЯ СТРУКТУРА ДОКУМЕНТА]\n\n"] else []) ++
    ((keyedFields data).filterMap fun p =>
      if pyStrip p.2 ≠ "" then some (pyTitle p.1 ++ ": " ++ pyStrip p.2 ++ "\n") else none) ++
    ["Требования к оформлению: формат страницы A4; поля 1 дюйм; шрифт Times New Roman или Arial 11–14; одинарный интервал; нумерация разделов и подразделов (1, 1.1, 1.1.1); подписи к таблицам и рисункам; нумерация приложений; при необходимости сноски формата [^n]: текст.\n"] ++
    (if content_type = "Только документ" then
      ["Используй исключительно информацию из блока [ИСТОЧНИКИ], без выдумывания фактов.\n"]
     else if content_type = "ИИ + источник" then
      ["Опирайся на [ИСТОЧНИКИ], дополняя нейросетевыми формулировками, но не противоречь источнику.\n"]
     else [])
  String.join parts

/-- The pipeline outcome tuple of `_manual_pipeline`. -/
structure PipeOut where
  final_draft : String
  conversation : List ConvEntry
  feedback_items : List FeedbackItem
  status : String
  used_fallback : Bool
deriving DecidableEq, Repr

/-- The outline prompt of step 2. -/
def outlinePromptOf (input_prompt : String) : String :=
  input_prompt ++ "\n\nСформируй только оглавление SOP (только нумерованные заголовки 1-го и 2-го уровня). Без текста разделов."

/-- The per-section prompt of step 3. -/
def partPromptOf (h : String) : String :=
  "Сгенерируй только раздел '" ++ h ++ "' в формате Markdown, строго соблюдая правила (A4, шрифты, нумерация). Не повторяй другие разделы."

/-- The critique prompt of step 4. -/
def criticPromptText : String :=
  "Проверь соответствие SOP правилам (структура, нумерация, обязательные разделы, подписи к таблицам/рисункам, приложения). Верни список замечаний в формате: ISSUE/WHY/FIX/BLOCKER. Если блокирующих нет, верни ровно 'STATUS: OK'."

/-- The revision prompt of step 6. -/
def revisePromptOf (input_prompt critic_feedback : String) : String :=
  input_prompt ++ "\n\nУчитывая следующие замечания Критика, сгенерируй ПОЛНУЮ обновлённую версию SOP в Markdown: \n\n" ++ critic_feedback

/-- The second-critique prompt of step 7. -/
def finalCriticUserText : String :=
  "Проверь итоговую версию. Если нет блокеров, верни 'STATUS: OK'."

/-- Oracle type for `call_llm` as the pipeline sees it. -/
abbrev LlmFn := List Msg → Nat → Nat → Except String String

/-- An error escaping the `try` block of `_manual_pipeline` carries the
message plus the conversation and feedback items accumulated so far (those
Python lists are mutated in place before the exception is raised). -/
abbrev PipeErr := String × List ConvEntry × List FeedbackItem

/-- The per-heading drafting loop of step 3. -/
def sectionLoop (llm : LlmFn) (headings : List String)
    (conv : List ConvEntry) (parts : List String) :
    Except PipeErr (List String × List ConvEntry) :=
  match headings with
  | [] => Except.ok (parts, conv)
  | h :: rest =>
    match llm [⟨"system", WRITER_SYSTEM⟩, ⟨"user", partPromptOf h⟩] 700 150 with
    | Except.error e => Except.error (e, conv, [])
    | Except.ok part =>
      sectionLoop llm rest (conv ++ [⟨"Writer", part⟩]) (parts ++ [part])

/-- Steps 2-3 of `_manual_pipeline`: outline, then either a single-shot draft
or one call per recovered heading. -/
def draftPhase (llm : LlmFn) (input_prompt : String) (conv0 : List ConvEntry) :
    Except PipeErr (String × List ConvEntry) :=
  match llm [⟨"system", WRITER_SYSTEM⟩, ⟨"user", outlinePromptOf input_prompt⟩] 400 120 with
  | Except.error e => Except.error (e, conv0, [])
  | Except.ok outline =>
    let conv1 := conv0 ++ [⟨"Writer", outline⟩]
    let headings := extract_top_level_headings outline
    if headings.isEmpty then
      match llm [⟨"system", WRITER_SYSTEM⟩, ⟨"user", input_prompt⟩] 1500 180 with
      | Except.error e => Except.error (e, conv1, [])
      | Except.ok draft => Except.ok (draft, conv1 ++ [⟨"Writer", draft⟩])
    else
      match sectionLoop llm headings conv1 [] with
      | Except.error e => Except.error e
      | Except.ok (parts, conv2) => Except.ok (pyJoin "\n\n" parts, conv2)

/-- Steps 4-7 of `_manual_pipeline`: critique, then conditionally revision and
second critique. -/
def reviewPhase (llm : LlmFn) (input_prompt draft : String)
    (conv : List ConvEntry) : Except PipeErr PipeOut :=
  match llm [⟨"system", CRITIC_SYSTEM⟩, ⟨"user", criticPromptText⟩] 500 120 with
  | Except.error e => Except.error (e, conv, [])
  | Except.ok critic_feedback =>
    let conv1 := conv ++ [⟨"Critic", critic_feedback⟩]
    if pyStrip critic_feedback = "STATUS: OK" then
      Except.ok ⟨draft, conv1, [], "OK", false⟩
    else
      let items := parse_feedback critic_feedback
      match llm [⟨"system", WRITER_SYSTEM⟩,
                 ⟨"user", revisePromptOf input_prompt critic_feedback⟩] 1500 180 with
      | Except.error e => Except.error (e, conv1, items)
      | Except.ok revised =>
        let conv2 := conv1 ++ [⟨"Writer", revised⟩]
        match llm [⟨"system", CRITIC_SYSTEM⟩, ⟨"user", finalCriticUserText⟩] 200 90 with
        | Except.error e => Except.error (e, conv2, items)
        | Except.ok critic_final =>
          let conv3 := conv2 ++ [⟨"Critic", critic_final⟩]
          let status := if pyStrip critic_final = "STATUS: OK" then "OK" else "NEEDS_REVIEW"
          Except.ok ⟨orDefault revised draft, conv3, items, status, false⟩

/-- The whole `try` block of `_manual_pipeline` (steps 2-7). -/
def pipelineTry (llm : LlmFn) (input_prompt : String) (conv0 : List ConvEntry) :
    Except PipeErr PipeOut :=
  match draftPhase llm input_prompt conv0 with
  | Except.error e => Except.error e
  | Except.ok (draft, conv1) => reviewPhase llm input_prompt draft conv1

/-- Model of `_manual_pipeline`: the initial user entry is appended before
the failure boundary; on any error the rule-based fallback draft is
substituted, three synthetic log entries are appended, the status is forced
to `"OK"` and `used_fallback` is set. -/
def manual_pipeline (llm : LlmFn) (input_prompt : String) (input_data : InputData)
    (max_rounds : Nat) : PipeOut :=
  let _ := max_rounds
  let conv0 : List ConvEntry := [⟨"User", input_prompt⟩]
  match pipelineTry llm input_prompt conv0 with
  | Except.ok out => out
  | Except.error (e, conv, items) =>
    ⟨rule_based_sop input_data,
     conv ++ [⟨"System", "LLM error: " ++ e⟩,
              ⟨"Writer", "Локальный генератор сформировал черновик SOP (без LLM)."⟩,
              ⟨"Critic", "STATUS: OK"⟩],
     items, "OK", true⟩

/-- `ReviewResult`. -/
structure ReviewResult where
  status : String
  draft_markdown : String
  conversation : List ConvEntry
  feedback_items : List FeedbackItem
  used_fallback : Bool
deriving DecidableEq, Repr

/-- Model of `run_review`. -/
def run_review (llm : LlmFn) (input_data : InputData) (max_rounds : Nat) : ReviewResult :=
  let initial_prompt := format_input_data_to_prompt input_data
  let out := manual_pipeline llm initial_prompt input_data max_rounds
  ⟨out.status, out.final_draft, out.conversation, out.feedback_items, out.used_fallback⟩

/-- A string with no line-boundary characters: a genuine single line, as
produced by `splitlines`. -/
def isSingleLine (s : String) : Bool := s.data.all fun c => !(isLineBreakChar c)

/-! ## Claim C9 -/

def figLine1 : String := "![c1](p1)"

def figLine2 : String := "![c2](p2)"

def figLine3 : String := "![c3](p3)"

/-- The pipe-table block of the claim: header, dash separator, one data row. -/
def tableBlockLines : List String := ["| A | B |", "|---|---|", "| x | y |"]

/-- All ten interleavings of three figure lines (in order) with two copies of
the table block. -/
def interleavings3and2 : List (List String) :=
  [tableBlockLines ++ tableBlockLines ++ [figLine1, figLine2, figLine3],
   tableBlockLines ++ [figLine1] ++ tableBlockLines ++ [figLine2, figLine3],
   tableBlockLines ++ [figLine1, figLine2] ++ tableBlockLines ++ [figLine3],
   tableBlockLines ++ [figLine1, figLine2, figLine3] ++ tableBlockLines,
   [figLine1] ++ tableBlockLines ++ tableBlockLines ++ [figLine2, figLine3],
   [figLine1] ++ tableBlockLines ++ [figLine2] ++ tableBlockLines ++ [figLine3],
   [figLine1] ++ tableBlockLines ++ [figLine2, figLine3] ++ tableBlockLines,
   [figLine1, figLine2] ++ tableBlockLines ++ tableBlockLines ++ [figLine3],
   [figLine1, figLine2] ++ tableBlockLines ++ [figLine3] ++ tableBlockLines,
   [figLine1, figLine2, figLine3] ++ tableBlockLines ++ tableBlockLines]

/-- A transport oracle on which every call raises. -/
def llmFail : LlmFn := fun _ _ _ => Except.error "connection refused"

/-- The input fields of the end-to-end scenario. -/
def c8Input : InputData :=
  { emptyInput with title := "Calibration of Scale X", procedure := "Step A; Step B" }

/-- The heading paragraph texts the renderer emits (run text is
`number ++ " " ++ text`). -/
def headingRunTexts (elems : List DocElem) : List String :=
  elems.filterMap fun e => match e with
    | DocElem.heading _ n t => some (n ++ " " ++ t)
    | _ => none

/-- A 200 response whose extracted content strips to the empty string. -/
def respEmptyContent : HttpResp :=
  ⟨200, some ⟨some [⟨MsgField.mdict (some "   "), none⟩]⟩, "raw response body"⟩

/-- The concrete conversation for the C3 witness. -/
def msgsW : List Msg := [⟨"system", "sys prompt"⟩, ⟨"user", "user prompt"⟩]

/-- A transport oracle failing on the first two tiers and succeeding on the
third. -/
def postW : String → Payload → Except String String := fun _ p =>
  if p = payload_plain msgsW 1500 then Except.error "e1"
  else if p = payload_typed msgsW 1500 then Except.error "e2"
  else Except.ok "TIER3"

/-- The concrete oracle for the C7 witness: outline without headings,
single-shot draft, non-sentinel first critique, sentinel second critique. -/
def llmW7 : LlmFn := fun msgs _ _ =>
  if msgs = [⟨"system", WRITER_SYSTEM⟩, ⟨"user", outlinePromptOf "P"⟩] then
    Except.ok "no outline"
  else if msgs = [⟨"system", WRITER_SYSTEM⟩, ⟨"user", "P"⟩] then Except.ok "DRAFT"
  else if msgs = [⟨"system", CRITIC_SYSTEM⟩, ⟨"user", criticPromptText⟩] then
    Except.ok "ISSUE: bad"
  else if msgs = [⟨"system", WRITER_SYSTEM⟩, ⟨"user", revisePromptOf "P" "ISSUE: bad"⟩] then
    Except.ok "REVISED"
  else if msgs = [⟨"system", CRITIC_SYSTEM⟩, ⟨"user", finalCriticUserText⟩] then
    Except.ok "STATUS: OK"
  else Except.error "unexpected"

/-- Concrete preamble for the C5 witness. -/
def preW : List String := ["The draft is weak overall"]

/-- Concrete well-formed blocks for the C5 witness. -/
def bsW : List RawBlock :=
  [⟨"Wrong personnel numbers", some "It misleads the reader", some "Recount the staff", some "Yes"⟩,
   ⟨"Missing safety section", none, none, none⟩]

/-! ## Auxiliary lemmas for the embedded definitions -/

theorem skipDigits_length_le (cs : List Char) : (skipDigits cs).length ≤ cs.length := by
  induction cs with
  | nil => simp [skipDigits]
  | cons c rest ih =>
    by_cases h : c.isDigit <;> simp [skipDigits, h] <;> omega

theorem numPrefixGroupsF_fuel_irrel (fuel1 fuel2 : Nat) (cs : List Char)
    (h1 : cs.length ≤ fuel1) (h2 : cs.length ≤ fuel2) :
    numPrefixGroupsF fuel1 cs = numPrefixGroupsF fuel2 cs := by
  induction fuel1 generalizing fuel2 cs with
  | zero =>
    have hcs : cs = [] := by
      cases cs
      · rfl
      · simp at h1
    subst hcs
    cases fuel2 <;> rfl
  | succ f ih =>
    cases fuel2 with
    | zero =>
      cases cs
      · rfl
      · simp at h2
    | succ f2 =>
      match cs with
      | [] => rfl
      | [c1] => rfl
      | c1 :: c2 :: rest =>
        simp only [numPrefixGroupsF]
        by_cases h : c1 = '.' ∧ c2.isDigit
        · rw [if_pos h, if_pos h]
          have hlen := skipDigits_length_le rest
          simp at h1 h2
          exact ih f2 (skipDigits rest) (by omega) (by omega)
        · rw [if_neg h, if_neg h]

theorem skipDashes_length_le (cs : List Char) : (skipDashes cs).length ≤ cs.length := by
  induction cs with
  | nil => simp [skipDashes]
  | cons c rest ih =>
    by_cases h : c = '-' <;> simp [skipDashes, h] <;> omega

theorem dropWhile_length_le {α : Type} (p : α → Bool) (l : List α) :
    (l.dropWhile p).length ≤ l.length := by
  induction l with
  | nil => simp
  | cons c rest ih =>
    by_cases h : p c <;> simp [List.dropWhile_cons, h] <;> omega

theorem eatDashCore_length_le (cs r : List Char) (h : eatDashCore cs = some r) :
    r.length ≤ cs.length := by
  unfold eatDashCore at h
  split at h
  next rest =>
    have hl := skipDashes_length_le rest
    split at h
    next r2 heq =>
      have := congrArg List.length heq
      simp at this
      cases h
      simp
      omega
    next heq =>
      cases h
      simp
      omega
  next =>
    cases h

theorem eatDashGroup_length_le (cs r : List Char) (h : eatDashGroup cs = some r) :
    r.length ≤ cs.length := by
  unfold eatDashGroup at h
  split at h
  next rest =>
    have := eatDashCore_length_le _ _ h
    simp at this ⊢
    omega
  next =>
    exact eatDashCore_length_le _ _ h

theorem eatSepGroupsF_fuel_irrel (fuel1 fuel2 : Nat) (cs : List Char) (n : Nat)
    (h1 : cs.length ≤ fuel1) (h2 : cs.length ≤ fuel2) :
    eatSepGroupsF fuel1 cs n = eatSepGroupsF fuel2 cs n := by
  induction fuel1 generalizing fuel2 cs n with
  | zero =>
    have hcs : cs = [] := by
      cases cs
      · rfl
      · simp at h1
    subst hcs
    cases fuel2 <;> rfl
  | succ f ih =>
    cases fuel2 with
    | zero =>
      have hcs : cs = [] := by
        cases cs
        · rfl
        · simp at h2
      subst hcs
      rfl
    | succ f2 =>
      match cs with
      | [] => rfl
      | c :: rest =>
        by_cases hc : c = '|'
        · subst hc
          simp only [eatSepGroupsF]
          cases heq : eatDashGroup (dropSpaces rest) with
          | none => rfl
          | some r =>
            have ha := eatDashGroup_length_le _ _ heq
            have hb := dropWhile_length_le isPySpaceChar rest
            have hc2 := dropWhile_length_le isPySpaceChar r
            simp only [dropSpaces] at ha hb hc2 ⊢
            simp at h1 h2
            exact ih f2 _ (n + 1) (by omega) (by omega)
        · simp only [eatSepGroupsF]
          split
          · simp_all
          · rfl

theorem parse_markdown_table_rest_le (l : String) (rest : List String) :
    ((parse_markdown_table (l :: rest)).2).length ≤ rest.length := by
  simp only [parse_markdown_table, List.span_eq_take_drop]
  match rest with
  | [] => simp
  | r :: t =>
    by_cases h : is_table_separator r <;> simp [h]
    · exact le_trans (dropWhile_length_le _ _) (Nat.le_succ _)
    · exact le_trans (dropWhile_length_le _ _) (by simp)

theorem renderFuel_fuel_irrel (fuel1 fuel2 : Nat) (sec : List Nat) (tc fc : Nat)
    (ls : List String) (h1 : ls.length ≤ fuel1) (h2 : ls.length ≤ fuel2) :
    renderFuel fuel1 sec tc fc ls = renderFuel fuel2 sec tc fc ls := by
  induction fuel1 generalizing fuel2 sec tc fc ls with
  | zero =>
    have hls : ls = [] := by
      cases ls
      · rfl
      · simp at h1
    subst hls
    cases fuel2 <;> rfl
  | succ f ih =>
    cases fuel2 with
    | zero =>
      have hls : ls = [] := by
        cases ls
        · rfl
        · simp at h2
      subst hls
      rfl
    | succ f2 =>
      match ls with
      | [] => rfl
      | line :: rest =>
        simp only [List.length_cons] at h1 h2
        have hrest : ∀ s t g, renderFuel f s t g rest = renderFuel f2 s t g rest :=
          fun s t g => ih f2 s t g rest (by omega) (by omega)
        have htab : ∀ s t g, renderFuel f s t g (parse_markdown_table (line :: rest)).2 =
            renderFuel f2 s t g (parse_markdown_table (line :: rest)).2 := by
          intro s t g
          have := parse_markdown_table_rest_le line rest
          exact ih f2 s t g _ (by omega) (by omega)
        simp only [renderFuel, hrest, htab]

/-! ## Helper lemmas for the renderer -/

theorem renderAux_nil (sec : List Nat) (tc fc : Nat) : renderAux sec tc fc [] = [] := rfl

/-- Fuel-free unfolding equation for one iteration of the renderer loop. -/
theorem renderAux_cons (sec : List Nat) (tc fc : Nat) (line : String) (rest : List String) :
    renderAux sec tc fc (line :: rest) =
      (match matchHeading line with
      | some (level, text) =>
        let sn := updateSecNums sec level
        let number := pyJoin "." ((sn.filter fun n => decide (0 < n)).map Nat.repr)
        let text2 : String := ⟨stripNumPrefixData text.data⟩
        DocElem.heading (min level 3) number text2 :: renderAux sn tc fc rest
      | none =>
        if strStartsWith (pyStrip line) "|" && nextIsSeparator rest then
          let pr := parse_markdown_table (line :: rest)
          DocElem.table pr.1 ::
            DocElem.tableCaption ("Таблица " ++ Nat.repr (tc + 1) ++ ": " ++ firstHeaderCell pr.1) ::
            renderAux sec (tc + 1) fc pr.2
        else
          match matchFigure line with
          | some (caption, _path) =>
            DocElem.figureCaption ("Рисунок " ++ Nat.repr (fc + 1) ++ ": " ++ caption) ::
              renderAux sec tc (fc + 1) rest
          | none =>
            if isBulletLine line then
              DocElem.listBullet (pyStrip ⟨(pyStrip line).data.drop 1⟩) ::
                renderAux sec tc fc rest
            else
              match matchNumListRest line with
              | some content => DocElem.listNumber content :: renderAux sec tc fc rest
              | none =>
                if isFootnoteLine line then
                  DocElem.footnote line :: renderAux sec tc fc rest
                else if pyStrip line = "" then
                  DocElem.para "" :: renderAux sec tc fc rest
                else
                  DocElem.para line :: renderAux sec tc fc rest) := by
  have htab : ∀ (s : List Nat) (t g : Nat),
      renderFuel rest.length s t g (parse_markdown_table (line :: rest)).2 =
        renderAux s t g (parse_markdown_table (line :: rest)).2 := by
    intro s t g
    have := parse_markdown_table_rest_le line rest
    exact renderFuel_fuel_irrel _ _ s t g _ (by omega) (le_refl _)
  simp only [renderAux, List.length_cons, renderFuel, htab]

theorem matchHeading_hash1 (t : String) :
    matchHeading ("# " ++ t) = some (1, pyStrip ⟨' ' :: t.data⟩) := by
  have hd : ("# " ++ t).data = '#' :: ' ' :: t.data := by
    rw [String.data_append]
    rfl
  simp +decide [matchHeading, hd, List.takeWhile_cons]

theorem matchHeading_hash2 (t : String) :
    matchHeading ("## " ++ t) = some (2, pyStrip ⟨' ' :: t.data⟩) := by
  have hd : ("## " ++ t).data = '#' :: '#' :: ' ' :: t.data := by
    rw [String.data_append]
    rfl
  simp +decide [matchHeading, hd, List.takeWhile_cons]

theorem matchHeading_hash3 (t : String) :
    matchHeading ("### " ++ t) = some (3, pyStrip ⟨' ' :: t.data⟩) := by
  have hd : ("### " ++ t).data = '#' :: '#' :: '#' :: ' ' :: t.data := by
    rw [String.data_append]
    rfl
  simp +decide [matchHeading, hd, List.takeWhile_cons]

/-! ## Claim C1 -/

/-- Claim C1, as stated, is false on the code: for heading depths
[1, 2, 2, 1, 3] the renderer emits `2.1` for the fifth heading, not `2.0.1` —
the zero synthesized at depth 2 is filtered out of the emitted number by the
`if n > 0` guard in `_convert_markdown_to_doc`. -/
theorem c1_counterexample :
    headingNumbers (convert_markdown_to_doc "# a\n## b\n## c\n# d\n### e") =
        ["1", "1.1", "1.2", "2", "2.1"] ∧
      headingNumbers (convert_markdown_to_doc "# a\n## b\n## c\n# d\n### e") ≠
        ["1", "1.1", "1.2", "2", "2.0.1"] := by
  decide

/-- Claim C1 (amended): for any five heading lines of depths [1, 2, 2, 1, 3]
(arbitrary heading texts, in particular with or without pre-existing numeric
prefixes), the heading pass emits the dotted numbers exactly
`1`, `1.1`, `1.2`, `2`, `2.1`: the implicit zero synthesized at depth 2 after
the depth-1 → depth-3 jump is kept in the internal counter stack but filtered
out of the emitted number. -/
theorem c1_amended_heading_numbers (t1 t2 t3 t4 t5 : String)
    (h1 : isSingleLine t1 = true) (h2 : isSingleLine t2 = true)
    (h3 : isSingleLine t3 = true) (h4 : isSingleLine t4 = true)
    (h5 : isSingleLine t5 = true) :
    headingNumbers (renderAux [] 0 0
        ["# " ++ t1, "## " ++ t2, "## " ++ t3, "# " ++ t4, "### " ++ t5]) =
      ["1", "1.1", "1.2", "2", "2.1"] := by
  simp only [renderAux_cons, renderAux_nil, matchHeading_hash1, matchHeading_hash2,
    matchHeading_hash3, headingNumbers, List.filterMap_cons, List.filterMap_nil]
  decide

/-- Witness for `c1_amended_heading_numbers` at concrete heading texts. -/
theorem c1_amended_heading_numbers_witness :
    headingNumbers (renderAux [] 0 0
        ["# " ++ "Intro", "## " ++ "2. Old", "## " ++ "B", "# " ++ "C", "### " ++ "D"]) =
      ["1", "1.1", "1.2", "2", "2.1"] :=
  c1_amended_heading_numbers "Intro" "2. Old" "B" "C" "D"
    (by decide) (by decide) (by decide) (by decide) (by decide)

/-- Claim C9: the renderer numbers tables and figures with two independent
counters.  A `| A | B |` header + separator + one data row renders with
caption `Таблица 1: A` and an identical later block with `Таблица 2: A`;
three image lines interleaved with two table blocks in any of the ten
possible orders receive figure captions `Рисунок 1: c1`, `Рисунок 2: c2`,
`Рисунок 3: c3`, regardless of where the tables sit. -/
theorem c9_table_figure_counters :
    tableCaptions (convert_markdown_to_doc
        "| A | B |\n|---|---|\n| x | y |\n\n| A | B |\n|---|---|\n| x | y |") =
      ["Таблица 1: A", "Таблица 2: A"] ∧
    ∀ doc ∈ interleavings3and2,
      figureCaptions (renderAux [] 0 0 doc) =
        ["Рисунок 1: c1", "Рисунок 2: c2", "Рисунок 3: c3"] := by
  decide

/-! ## Claim C6 -/

/-- Claim C6, as stated, is false on the code: the parser lower-cases the
text after `BLOCKER:` but does not restrict it to `yes`/`no` — the critique
`"ISSUE: X\nBLOCKER: Maybe"` yields an item whose blocker is `"maybe"`. -/
theorem c6_counterexample :
    parse_feedback "ISSUE: X\nBLOCKER: Maybe" =
        [{ issue := "X", why := "", fix := "", blocker := "maybe" }] ∧
      "maybe" ≠ "yes" ∧ "maybe" ≠ "no" := by
  decide

/-- Claim C6 (amended): every item the feedback parser produces has a blocker
field that is either the default `"no"` (when the block has no `BLOCKER:`
label) or the whitespace-trimmed lower-cased text following the first
`BLOCKER:` label; the code does not force it into the two values
`yes`/`no`. -/
theorem c6_amended_blocker_normalized (text : String) (it : FeedbackItem)
    (hmem : it ∈ parse_feedback text) :
    it.blocker = "no" ∨ ∃ raw, it.blocker = pyStrip (pyLower (pyStrip raw)) := by
  unfold parse_feedback at hmem
  split at hmem
  · simp at hmem
  · simp only [List.mem_filterMap] at hmem
    obtain ⟨block, _, hparse⟩ := hmem
    unfold parseBlock at hparse
    split at hparse
    · cases hparse
    · cases hb : reSearchLabel "BLOCKER:" block with
      | none =>
        simp only [hb] at hparse
        split at hparse
        · have hit := Option.some.inj hparse
          subst hit
          left
          rfl
        · cases hparse
      | some b =>
        simp only [hb] at hparse
        split at hparse
        · have hit := Option.some.inj hparse
          subst hit
          right
          exact ⟨b, rfl⟩
        · cases hparse

/-- Witness for `c6_amended_blocker_normalized` at a concrete critique. -/
theorem c6_amended_blocker_normalized_witness :
    ({ issue := "X", why := "", fix := "", blocker := "maybe" } : FeedbackItem).blocker = "no" ∨
      ∃ raw, ({ issue := "X", why := "", fix := "", blocker := "maybe" } : FeedbackItem).blocker =
        pyStrip (pyLower (pyStrip raw)) :=
  c6_amended_blocker_normalized "ISSUE: X\nBLOCKER: Maybe"
    { issue := "X", why := "", fix := "", blocker := "maybe" } (by decide)

/-! ## Claim C8 -/

set_option maxRecDepth 40000

/-- Claim C8, as stated, is false on the code: the pipeline does return
`status = OK` with the fallback draft, but rendering that draft emits no
heading titled `5. Порядок выполнения работ` — the renderer renumbers the
section under the level-1 title heading and strips the numeric prefix. -/
theorem c8_counterexample :
    (run_review llmFail c8Input 8).status = "OK" ∧
    (run_review llmFail c8Input 8).used_fallback = true ∧
    (run_review llmFail c8Input 8).draft_markdown = rule_based_sop c8Input ∧
    "5. Порядок выполнения работ" ∉
      headingRunTexts (convert_markdown_to_doc (rule_based_sop c8Input)) := by
  decide

/-- Claim C8 (amended): for the given fields with every transport call
raising, the pipeline returns `status = OK` and `used_fallback = true`, the
final markdown is the fallback generator's output and contains the section
line `## 5. Порядок выполнения работ` with body `Step A; Step B`; rendering
that markdown emits this section renumbered as heading `1.5` with text
`Порядок выполнения работ` (the DOCX run reads `1.5 Порядок выполнения
работ`), immediately followed by the body paragraph `Step A; Step B`. -/
theorem c8_amended_end_to_end :
    (run_review llmFail c8Input 8).status = "OK" ∧
    (run_review llmFail c8Input 8).used_fallback = true ∧
    (run_review llmFail c8Input 8).draft_markdown = rule_based_sop c8Input ∧
    "## 5. Порядок выполнения работ" ∈ pySplitlines (rule_based_sop c8Input) ∧
    [DocElem.heading 2 "1.5" "Порядок выполнения работ", DocElem.para "Step A; Step B"]
      <:+: convert_markdown_to_doc (rule_based_sop c8Input) := by
  decide

/-! ## Claim C4 -/

/-- Claim C4: `_post_once` treats a 200 response whose body fails to parse or
whose extracted content is empty as a failure (so the caller moves on to the
next fallback tier), and returns success only for a 200 response with
non-empty extracted content. -/
theorem c4_post_once_only_nonempty_200 (url : String) (resp : HttpResp) :
    (resp.status_code = 200 →
      resp.json = none ∨ resp.json.bind extract_content = none ∨
        resp.json.bind extract_content = some "" →
      ∃ e, post_once url resp = Except.error e) ∧
    (∀ c, post_once url resp = Except.ok c →
      resp.status_code = 200 ∧ c ≠ "" ∧ resp.json.bind extract_content = some c) := by
  constructor
  · intro h200 hbad
    unfold post_once
    rw [if_pos h200]
    rcases hbad with hj | he | he
    · rw [hj]
      exact ⟨_, rfl⟩
    · cases hjson : resp.json with
      | none => simp [hjson]
      | some j =>
        rw [hjson] at he
        simp at he
        simp [hjson, he]
    · cases hjson : resp.json with
      | none => simp [hjson] at he
      | some j =>
        rw [hjson] at he
        simp at he
        simp [hjson, he]
  · intro c hok
    unfold post_once at hok
    by_cases h200 : resp.status_code = 200
    · rw [if_pos h200] at hok
      cases hjson : resp.json with
      | none =>
        simp only [hjson] at hok
        cases hok
      | some j =>
        simp only [hjson] at hok
        cases hext : extract_content j with
        | none =>
          simp only [hext] at hok
          cases hok
        | some content =>
          simp only [hext] at hok
          by_cases hc : content = ""
          · rw [if_pos hc] at hok
            cases hok
          · rw [if_neg hc] at hok
            have hval := Except.ok.inj hok
            subst hval
            exact ⟨h200, hc, by simp [hjson, hext]⟩
    · rw [if_neg h200] at hok
      cases hok

/-- Witness for `c4_post_once_only_nonempty_200`: an empty-content 200 is an
error. -/
theorem c4_witness : ∃ e, post_once "someUrl" respEmptyContent = Except.error e :=
  (c4_post_once_only_nonempty_200 "someUrl" respEmptyContent).1 rfl (by decide)

/-! ## Claim C3 -/

/-- Claim C3: when on the first URL the plain and typed full-conversation
tiers fail and the minimized plain tier (first message if a system message,
plus the last message; token budget `min(800, max_tokens)`) succeeds,
`call_llm` returns the tier-three content having attempted exactly those
three requests: the fourth tier and all later URLs / outer attempts are never
tried. -/
theorem c3_tier3_short_circuit
    (post : String → Payload → Except String String) (messages : List Msg)
    (max_tokens timeout_read : Nat) (c e1 e2 : String)
    (h1 : post (apiBase ++ "/chat/completions") (payload_plain messages max_tokens) =
      Except.error e1)
    (h2 : post (apiBase ++ "/chat/completions") (payload_typed messages max_tokens) =
      Except.error e2)
    (h3 : post (apiBase ++ "/chat/completions")
        (payload_plain (minimalMsgs messages) (min 800 max_tokens)) = Except.ok c) :
    call_llm post messages max_tokens timeout_read =
      (Except.ok c,
       [(apiBase ++ "/chat/completions", payload_plain messages max_tokens),
        (apiBase ++ "/chat/completions", payload_typed messages max_tokens),
        (apiBase ++ "/chat/completions",
          payload_plain (minimalMsgs messages) (min 800 max_tokens))]) := by
  unfold call_llm
  simp only [apiUrls, List.cons_append, List.nil_append]
  unfold callLLMUrls
  unfold tryTiersAt
  simp only [h1, h2, h3]

/-- Witness for `c3_tier3_short_circuit` at a concrete oracle. -/
theorem c3_witness :
    call_llm postW msgsW 1500 600 =
      (Except.ok "TIER3",
       [(apiBase ++ "/chat/completions", payload_plain msgsW 1500),
        (apiBase ++ "/chat/completions", payload_typed msgsW 1500),
        (apiBase ++ "/chat/completions",
          payload_plain (minimalMsgs msgsW) (min 800 1500))]) :=
  c3_tier3_short_circuit postW msgsW 1500 600 "TIER3" "e1" "e2"
    (by decide) (by decide) (by decide)

/-! ## Claim C2 -/

theorem string_eq_empty_of_length (x : String) (h : x.length = 0) : x = "" := by
  cases x with
  | mk data =>
    cases data with
    | nil => rfl
    | cons c cs => simp [String.length] at h

theorem pyJoin_ne_empty_of_head_ne (sep x : String) (xs : List String) (hx : x ≠ "") :
    pyJoin sep (x :: xs) ≠ "" := by
  cases xs with
  | nil => simpa [pyJoin] using hx
  | cons y ys =>
    intro h
    apply hx
    have hlen := congrArg String.length h
    simp only [pyJoin, String.length_append] at hlen
    apply string_eq_empty_of_length
    have h0 : ("" : String).length = 0 := rfl
    omega

/-- The fallback generator never returns an empty draft (its first line is
`# <title>` with a non-empty default title). -/
theorem rule_based_sop_ne_empty (data : InputData) : rule_based_sop data ≠ "" := by
  unfold rule_based_sop
  simp only [List.cons_append]
  apply pyJoin_ne_empty_of_head_ne
  intro h
  have hlen := congrArg String.length h
  simp only [String.length_append] at hlen
  have h2 : ("# " : String).length = 2 := rfl
  have h0 : ("" : String).length = 0 := rfl
  omega

/-- Claim C2: when every transport call raises, `run_review` still returns an
outcome (no exception escapes) with `status = OK`, `used_fallback = true`,
and a non-empty final text equal to the rule-based fallback generator's
output for the same input fields. -/
theorem c2_orchestrator_fallback (llm : LlmFn) (data : InputData)
    (hfail : ∀ msgs mt tr, ∃ e, llm msgs mt tr = Except.error e) :
    (run_review llm data 8).status = "OK" ∧
    (run_review llm data 8).used_fallback = true ∧
    (run_review llm data 8).draft_markdown = rule_based_sop data ∧
    (run_review llm data 8).draft_markdown ≠ "" := by
  obtain ⟨e, he⟩ := hfail
    [⟨"system", WRITER_SYSTEM⟩,
     ⟨"user", outlinePromptOf (format_input_data_to_prompt data)⟩] 400 120
  unfold run_review manual_pipeline pipelineTry draftPhase
  simp only [he]
  exact ⟨trivial, trivial, trivial, rule_based_sop_ne_empty data⟩

/-- Witness for `c2_orchestrator_fallback` at the always-failing oracle. -/
theorem c2_witness :
    (run_review llmFail emptyInput 8).status = "OK" ∧
    (run_review llmFail emptyInput 8).used_fallback = true ∧
    (run_review llmFail emptyInput 8).draft_markdown = rule_based_sop emptyInput ∧
    (run_review llmFail emptyInput 8).draft_markdown ≠ "" :=
  c2_orchestrator_fallback llmFail emptyInput
    (fun _ _ _ => ⟨"connection refused", rfl⟩)

/-! ## Claim C7 -/

/-- Claim C7: when the remote path completes without the fallback, the status
is `OK` exactly when the deciding critique equals the sentinel
`STATUS: OK` (critiques produced by the transport are always stripped, which
the `pyStrip c = c` hypotheses record, so strip-comparison in the code is
exact equality); after a non-sentinel first critique the final text is the
revision, or the original draft when the revision produced no text. -/
theorem c7_status_iff_sentinel (llm : LlmFn) (input_prompt : String)
    (data : InputData) (draft : String) (conv1 : List ConvEntry) (c1 : String)
    (hdraft : draftPhase llm input_prompt [⟨"User", input_prompt⟩] =
      Except.ok (draft, conv1))
    (hc1 : llm [⟨"system", CRITIC_SYSTEM⟩, ⟨"user", criticPromptText⟩] 500 120 =
      Except.ok c1)
    (hstrip1 : pyStrip c1 = c1) :
    (c1 = "STATUS: OK" →
      manual_pipeline llm input_prompt data 8 =
        ⟨draft, conv1 ++ [⟨"Critic", c1⟩], [], "OK", false⟩) ∧
    (c1 ≠ "STATUS: OK" → ∀ rev c2,
      llm [⟨"system", WRITER_SYSTEM⟩,
           ⟨"user", revisePromptOf input_prompt c1⟩] 1500 180 = Except.ok rev →
      llm [⟨"system", CRITIC_SYSTEM⟩, ⟨"user", finalCriticUserText⟩] 200 90 =
        Except.ok c2 →
      pyStrip c2 = c2 →
      (manual_pipeline llm input_prompt data 8).status =
          (if c2 = "STATUS: OK" then "OK" else "NEEDS_REVIEW") ∧
        (manual_pipeline llm input_prompt data 8).final_draft =
          (if rev = "" then draft else rev) ∧
        (manual_pipeline llm input_prompt data 8).used_fallback = false) := by
  constructor
  · intro hok
    simp only [manual_pipeline, pipelineTry, hdraft, reviewPhase, hc1, hstrip1]
    rw [if_pos hok]
  · intro hne rev c2 hrev hc2 hstrip2
    simp only [manual_pipeline, pipelineTry, hdraft, reviewPhase, hc1, hstrip1]
    rw [if_neg hne]
    simp only [hrev, hc2, hstrip2, orDefault]
    exact ⟨by trivial, by trivial, by trivial⟩

/-- Witness for `c7_status_iff_sentinel`. -/
theorem c7_witness :
    (manual_pipeline llmW7 "P" emptyInput 8).status = "OK" ∧
    (manual_pipeline llmW7 "P" emptyInput 8).final_draft = "REVISED" ∧
    (manual_pipeline llmW7 "P" emptyInput 8).used_fallback = false := by
  have h := (c7_status_iff_sentinel llmW7 "P" emptyInput "DRAFT"
      [⟨"User", "P"⟩, ⟨"Writer", "no outline"⟩, ⟨"Writer", "DRAFT"⟩] "ISSUE: bad"
      (by decide) (by decide) (by decide)).2 (by decide) "REVISED" "STATUS: OK"
      (by decide) (by decide) (by decide)
  simpa using h

/-! ## Claim C10 -/

/-- Every heading any renderer run emits has a dotted number assembled from a
list of strictly positive counters (the `if n > 0` filter removes the zero
entries of the counter stack). -/
theorem renderFuel_heading_num (fuel : Nat) (sec : List Nat) (tc fc : Nat)
    (ls : List String) (lvl : Nat) (num text : String)
    (he : DocElem.heading lvl num text ∈ renderFuel fuel sec tc fc ls) :
    ∃ parts : List Nat, (∀ p ∈ parts, 0 < p) ∧ num = pyJoin "." (parts.map Nat.repr) := by
  induction fuel generalizing sec tc fc ls with
  | zero => simp [renderFuel] at he
  | succ f ih =>
    match ls with
    | [] => simp [renderFuel] at he
    | line :: rest =>
      simp only [renderFuel] at he
      cases hm : matchHeading line with
      | some lt =>
        obtain ⟨level, text0⟩ := lt
        simp only [hm] at he
        rcases List.mem_cons.mp he with hhead | htail
        · refine ⟨(updateSecNums sec level).filter (fun n => decide (0 < n)), ?_, ?_⟩
          · intro p hp
            exact of_decide_eq_true (List.mem_filter.mp hp).2
          · simp only [DocElem.heading.injEq] at hhead
            exact hhead.2.1
        · exact ih _ _ _ _ htail
      | none =>
        simp only [hm] at he
        split at he
        · rcases List.mem_cons.mp he with h | he2
          · simp at h
          · rcases List.mem_cons.mp he2 with h | he3
            · simp at h
            · exact ih _ _ _ _ he3
        · cases hf : matchFigure line with
          | some cp =>
            obtain ⟨cap, path⟩ := cp
            simp only [hf] at he
            rcases List.mem_cons.mp he with h | he2
            · simp at h
            · exact ih _ _ _ _ he2
          | none =>
            simp only [hf] at he
            split at he
            · rcases List.mem_cons.mp he with h | he2
              · simp at h
              · exact ih _ _ _ _ he2
            · cases hn : matchNumListRest line with
              | some content =>
                simp only [hn] at he
                rcases List.mem_cons.mp he with h | he2
                · simp at h
                · exact ih _ _ _ _ he2
              | none =>
                simp only [hn] at he
                split at he
                · rcases List.mem_cons.mp he with h | he2
                  · simp at h
                  · exact ih _ _ _ _ he2
                · split at he
                  · rcases List.mem_cons.mp he with h | he2
                    · simp at h
                    · exact ih _ _ _ _ he2
                  · rcases List.mem_cons.mp he with h | he2
                    · simp at h
                    · exact ih _ _ _ _ he2

/-- Claim C10: every dotted heading number the renderer emits is built only
from strictly positive counter entries — the zero held at an intermediate
depth of the internal counter stack (after a depth jump) never appears as a
component of an emitted number. -/
theorem c10_no_zero_components (md : String) (lvl : Nat) (num text : String)
    (he : DocElem.heading lvl num text ∈ convert_markdown_to_doc md) :
    ∃ parts : List Nat, (∀ p ∈ parts, 0 < p) ∧ num = pyJoin "." (parts.map Nat.repr) := by
  unfold convert_markdown_to_doc renderAux at he
  exact renderFuel_heading_num _ _ _ _ _ _ _ _ he

/-- Witness for `c10_no_zero_components` on the depth-jump document: the
fifth heading (depth 3 after depth 1) is numbered by positive components
only. -/
theorem c10_witness :
    ∃ parts : List Nat, (∀ p ∈ parts, 0 < p) ∧ "2.1" = pyJoin "." (parts.map Nat.repr) :=
  c10_no_zero_components "# a\n## b\n## c\n# d\n### e" 3 "2.1" "e" (by decide)

theorem isPre_append_self (p r : List Char) : isPre p (p ++ r) = true := by
  induction p with
  | nil => rfl
  | cons c ps ih => simp [isPre, ih]

theorem searchAfter_prefix (p x : List Char) : searchAfter p (p ++ x) = some x := by
  cases p with
  | nil =>
    cases x with
    | nil => rfl
    | cons c t => simp [searchAfter, isPre]
  | cons a ps =>
    show searchAfter (a :: ps) ((a :: ps) ++ x) = some x
    rw [List.cons_append, searchAfter, if_pos (by
      rw [← List.cons_append]
      exact isPre_append_self (a :: ps) x)]
    rw [← List.cons_append, List.drop_left]

theorem searchAfter_nil_of_ne (pat : List Char) (h : pat ≠ []) :
    searchAfter pat [] = none := by
  cases pat with
  | nil => exact absurd rfl h
  | cons p ps => rfl

theorem isPre_false_of_searchAfter_none (pat s : List Char)
    (h : searchAfter pat s = none) : isPre pat s = false := by
  cases s with
  | nil =>
    rw [searchAfter] at h
    split at h
    · cases h
    · next hp => exact Bool.eq_false_iff.mpr hp
  | cons c t =>
    rw [searchAfter] at h
    split at h
    · cases h
    · next hp => exact Bool.eq_false_iff.mpr hp

theorem searchAfter_cons_of_not_pre (pat : List Char) (c : Char) (t : List Char)
    (h : isPre pat (c :: t) = false) :
    searchAfter pat (c :: t) = searchAfter pat t := by
  rw [searchAfter, if_neg]
  simp [h]

theorem searchAfter_cons_none (pat : List Char) (c : Char) (t : List Char)
    (h : searchAfter pat (c :: t) = none) :
    searchAfter pat t = none ∧ isPre pat (c :: t) = false := by
  rw [searchAfter] at h
  split at h
  · cases h
  · next hp => exact ⟨h, Bool.eq_false_iff.mpr hp⟩

theorem isPre_append_nl (pat : List Char) (hp : noNewline pat = true) (s r : List Char) :
    isPre pat (s ++ '\n' :: r) = isPre pat s := by
  induction pat generalizing s with
  | nil => simp [isPre]
  | cons p ps ih =>
    simp only [noNewline, List.all_cons, Bool.and_eq_true, decide_eq_true_eq] at hp
    cases s with
    | nil =>
      simp only [List.nil_append, isPre]
      simp [hp.1]
    | cons c s2 =>
      simp only [List.cons_append, isPre, List.append_eq]
      rw [ih hp.2]

theorem searchAfter_skip_text (pat : List Char) (hp : noNewline pat = true)
    (hpe : pat ≠ []) (text : List Char) (hnone : searchAfter pat text = none)
    (r : List Char) :
    searchAfter pat (text ++ '\n' :: r) = searchAfter pat r := by
  induction text with
  | nil =>
    cases pat with
    | nil => exact absurd rfl hpe
    | cons p ps =>
      rw [List.nil_append]
      rw [searchAfter_cons_of_not_pre]
      simp only [noNewline, List.all_cons, Bool.and_eq_true, decide_eq_true_eq] at hp
      simp [isPre, hp.1]
  | cons c text2 ih =>
    obtain ⟨htail, hpre⟩ := searchAfter_cons_none pat c text2 hnone
    rw [List.cons_append, searchAfter_cons_of_not_pre]
    · exact ih htail
    · rw [show c :: (text2 ++ '\n' :: r) = (c :: text2) ++ '\n' :: r from rfl,
        isPre_append_nl pat hp]
      exact hpre

theorem isPre_false_of_mismatchIn (pat s t : List Char) (h : mismatchIn pat s = true) :
    isPre pat (s ++ t) = false := by
  induction pat generalizing s with
  | nil =>
    cases s <;> simp [mismatchIn] at h
  | cons p ps ih =>
    cases s with
    | nil => simp [mismatchIn] at h
    | cons c cs =>
      simp only [mismatchIn, Bool.or_eq_true, decide_eq_true_eq] at h
      rcases h with h | h
      · simp [isPre, h]
      · simp [isPre, ih cs h]

theorem mismatchIn_append_left (pat a x : List Char) (h : mismatchIn pat a = true) :
    mismatchIn pat (a ++ x) = true := by
  induction pat generalizing a with
  | nil => cases a <;> simp [mismatchIn] at h
  | cons p ps ih =>
    cases a with
    | nil => simp [mismatchIn] at h
    | cons c cs =>
      simp only [mismatchIn, Bool.or_eq_true, decide_eq_true_eq] at h ⊢
      rcases h with h | h
      · exact Or.inl h
      · exact Or.inr (ih cs h)

theorem searchAfter_skip_lit (pat lit t : List Char) (h : litSkips pat lit = true) :
    searchAfter pat (lit ++ t) = searchAfter pat t := by
  induction lit with
  | nil => rfl
  | cons c rest ih =>
    simp only [litSkips, Bool.and_eq_true] at h
    rw [List.cons_append, searchAfter_cons_of_not_pre]
    · exact ih h.2
    · rw [show c :: (rest ++ t) = (c :: rest) ++ t from rfl]
      exact isPre_false_of_mismatchIn pat (c :: rest) t h.1

theorem occursIn_false_none (pat : List Char) (s : String)
    (h : containsSub ⟨pat⟩ s = false) : searchAfter pat s.data = none := by
  unfold containsSub occursIn at h
  cases hs : searchAfter pat s.data with
  | none => rfl
  | some v => rw [hs] at h; cases h

/-! ### Chunk II: strip-fixed strings and label extraction -/

theorem strEta (s : String) : (⟨s.data⟩ : String) = s := rfl

theorem data_ne_nil (s : String) (h : s ≠ "") : s.data ≠ [] := by
  intro hc
  apply h
  rw [← strEta s, hc]

theorem mk_eq_of_data (l : List Char) (s : String) (h : l = s.data) :
    (⟨l⟩ : String) = s := by
  rw [h]

theorem pyJoin_data (L : List String) :
    (pyJoin "\n" L).data = joinNl (L.map String.data) := by
  induction L with
  | nil => rfl
  | cons x xs ih =>
    cases xs with
    | nil => rfl
    | cons y ys =>
      show ((x ++ "\n") ++ pyJoin "\n" (y :: ys)).data = _
      rw [String.data_append, String.data_append, ih]
      simp [joinNl]

theorem joinNl_cons (x : List Char) (ys : List (List Char)) (h : ys ≠ []) :
    joinNl (x :: ys) = x ++ '\n' :: joinNl ys := by
  cases ys with
  | nil => exact absurd rfl h
  | cons y ys2 => rfl

theorem joinNl_append (a b : List (List Char)) (ha : a ≠ []) (hb : b ≠ []) :
    joinNl (a ++ b) = joinNl a ++ '\n' :: joinNl b := by
  induction a with
  | nil => exact absurd rfl ha
  | cons x xs ih =>
    cases xs with
    | nil =>
      rw [List.singleton_append, joinNl_cons x b hb]
      rfl
    | cons z zs =>
      rw [List.cons_append, joinNl_cons x ((z :: zs) ++ b) (by simp),
        joinNl_cons x (z :: zs) (by simp), ih (by simp)]
      simp

theorem join_cons_eq {α : Type} (x : List α) (xs : List (List α)) :
    (x :: xs).join = x ++ xs.join := rfl

theorem join_ne_nil_of_head {α : Type} (x : List α) (xs : List (List α)) (hx : x ≠ []) :
    (x :: xs).join ≠ [] := by
  cases x with
  | nil => exact absurd rfl hx
  | cons c t => simp

theorem joinNl_flatten (lls : List (List (List Char))) (h : ∀ l ∈ lls, l ≠ []) :
    joinNl lls.join = joinNl (lls.map joinNl) := by
  induction lls with
  | nil => rfl
  | cons x xs ih =>
    cases xs with
    | nil => simp [joinNl]
    | cons y ys =>
      have hx : x ≠ [] := h x (by simp)
      have hy : y ≠ [] := h y (by simp)
      obtain ⟨c, t, rfl⟩ : ∃ c t, y = c :: t := by
        cases y with
        | nil => exact absurd rfl hy
        | cons c t => exact ⟨c, t, rfl⟩
      rw [join_cons_eq,
        joinNl_append x ((c :: t) :: ys).join hx
          (join_ne_nil_of_head (c :: t) ys (by simp)),
        ih (fun l hl => h l (List.mem_cons_of_mem x hl)),
        List.map_cons, List.map_cons, List.map_cons,
        joinNl_cons (joinNl x) (joinNl (c :: t) :: ys.map joinNl) (by simp)]

theorem takeWhile_append_all (p : Char → Bool) (a b : List Char)
    (h : ∀ x ∈ a, p x = true) :
    List.takeWhile p (a ++ b) = a ++ List.takeWhile p b := by
  induction a with
  | nil => rfl
  | cons c t ih =>
    rw [List.cons_append, List.takeWhile_cons, h c (by simp), List.cons_append,
      ih (fun x hx => h x (List.mem_cons_of_mem c hx))]
    simp

theorem dropWhile_cons_neg (p : Char → Bool) (c : Char) (t : List Char)
    (h : p c = false) : List.dropWhile p (c :: t) = c :: t := by
  rw [List.dropWhile_cons, h]
  simp

theorem head_neg_of_dropWhile_fix (p : Char → Bool) (c : Char) (t : List Char)
    (h : List.dropWhile p (c :: t) = c :: t) : p c = false := by
  cases hc : p c with
  | false => rfl
  | true =>
    rw [List.dropWhile_cons, hc] at h
    simp only [if_pos] at h
    have h1 := dropWhile_length_le p t
    have h2 := congrArg List.length h
    simp at h2
    omega

theorem stripFixed_parts (cs : List Char) (h : pyStripData cs = cs) :
    List.dropWhile isPySpaceChar cs = cs ∧
      List.dropWhile isPySpaceChar cs.reverse = cs.reverse := by
  have hlen : (pyStripData cs).length = cs.length := by rw [h]
  have hinner :
      (pyStripData cs).length
        = (List.dropWhile isPySpaceChar (List.dropWhile isPySpaceChar cs).reverse).length := by
    simp [pyStripData]
  have h2 : (List.dropWhile isPySpaceChar (List.dropWhile isPySpaceChar cs).reverse).length
      ≤ (List.dropWhile isPySpaceChar cs).length := by
    have := dropWhile_length_le isPySpaceChar (List.dropWhile isPySpaceChar cs).reverse
    simpa using this
  have h3 : (List.dropWhile isPySpaceChar cs).length ≤ cs.length :=
    dropWhile_length_le _ _
  have hdl : (List.dropWhile isPySpaceChar cs).length = cs.length := by omega
  have ht := List.takeWhile_append_dropWhile isPySpaceChar cs
  have htl : (List.takeWhile isPySpaceChar cs).length = 0 := by
    have h5 := congrArg List.length ht
    rw [List.length_append] at h5
    omega
  have htw : List.takeWhile isPySpaceChar cs = [] := List.eq_nil_of_length_eq_zero htl
  have hD1 : List.dropWhile isPySpaceChar cs = cs := by
    conv_rhs => rw [← ht]
    rw [htw, List.nil_append]
  refine ⟨hD1, ?_⟩
  have h4 : (List.dropWhile isPySpaceChar cs.reverse).reverse = cs := by
    have : pyStripData cs = (List.dropWhile isPySpaceChar cs.reverse).reverse := by
      simp [pyStripData, hD1]
    rw [← this, h]
  have := congrArg List.reverse h4
  simpa using this

theorem pyStripData_decomp (cs : List Char) :
    ∃ a b, cs = a ++ pyStripData cs ++ b ∧ (∀ c ∈ a, isPySpaceChar c = true) ∧
      (∀ c ∈ b, isPySpaceChar c = true) := by
  refine ⟨List.takeWhile isPySpaceChar cs,
    (List.takeWhile isPySpaceChar (List.dropWhile isPySpaceChar cs).reverse).reverse,
    ?_, ?_, ?_⟩
  · conv_lhs => rw [← List.takeWhile_append_dropWhile isPySpaceChar cs]
    rw [List.append_assoc]
    congr 1
    have h1 := List.takeWhile_append_dropWhile isPySpaceChar
      (List.dropWhile isPySpaceChar cs).reverse
    have h2 := congrArg List.reverse h1
    simp only [List.reverse_append, List.reverse_reverse] at h2
    conv_lhs => rw [← h2]
    rfl
  · intro c hc
    exact List.mem_takeWhile_imp hc
  · intro c hc
    rw [List.mem_reverse] at hc
    exact List.mem_takeWhile_imp hc

theorem stripData_ne_nil_of_mem (cs : List Char) (c : Char) (hc : c ∈ cs)
    (hw : isPySpaceChar c = false) : pyStripData cs ≠ [] := by
  intro h
  obtain ⟨a, b, hcs, ha, hb⟩ := pyStripData_decomp cs
  rw [h] at hcs
  rw [hcs] at hc
  simp only [List.append_nil, List.mem_append] at hc
  rcases hc with hc | hc
  · rw [ha c hc] at hw
    cases hw
  · rw [hb c hc] at hw
    cases hw

theorem pyStrip_mk_ne_empty (cs : List Char) (c : Char) (hc : c ∈ cs)
    (hw : isPySpaceChar c = false) : pyStrip ⟨cs⟩ ≠ "" := by
  intro h
  have := congrArg String.data h
  exact stripData_ne_nil_of_mem cs c hc hw this

theorem cleanTok_spec (t : String) (h : cleanTok t = true) :
    pyStrip t = t ∧ t ≠ "" ∧ (∀ c ∈ t.data, isLineBreakChar c = false) ∧
      ∀ lab ∈ labelStrings, containsSub lab t = false := by
  simp only [cleanTok, Bool.and_eq_true, decide_eq_true_eq, singleLineStr,
    List.all_eq_true, Bool.not_eq_true'] at h
  obtain ⟨⟨⟨h1, h2⟩, h3⟩, h4⟩ := h
  exact ⟨h1, h2, h3, h4⟩

theorem ne_nl_of_not_lb (c : Char) (h : isLineBreakChar c = false) :
    decide (c ≠ '\n') = true := by
  rcases Decidable.em (c = '\n') with hc | hc
  · subst hc
    cases h
  · simp [hc]

theorem cleanTok_head (t : String) (h : cleanTok t = true) :
    ∃ c cs, t.data = c :: cs ∧ isPySpaceChar c = false := by
  obtain ⟨h1, h2, _, _⟩ := cleanTok_spec t h
  obtain ⟨c, cs, hc⟩ := List.exists_cons_of_ne_nil (data_ne_nil t h2)
  refine ⟨c, cs, hc, ?_⟩
  have hd := (stripFixed_parts t.data (congrArg String.data h1)).1
  rw [hc] at hd
  exact head_neg_of_dropWhile_fix isPySpaceChar c cs hd

theorem cleanTok_last (t : String) (h : cleanTok t = true) :
    ∃ c cs, t.data.reverse = c :: cs ∧ isPySpaceChar c = false := by
  obtain ⟨h1, h2, _, _⟩ := cleanTok_spec t h
  have hrne : t.data.reverse ≠ [] := by
    intro hr
    exact data_ne_nil t h2 (by simpa using congrArg List.reverse hr)
  obtain ⟨c, cs, hc⟩ := List.exists_cons_of_ne_nil hrne
  refine ⟨c, cs, hc, ?_⟩
  have hd := (stripFixed_parts t.data (congrArg String.data h1)).2
  rw [hc] at hd
  exact head_neg_of_dropWhile_fix isPySpaceChar c cs hd

theorem pyStripData_append_of (a b : List Char)
    (ha : ∃ c t, a = c :: t ∧ isPySpaceChar c = false)
    (hb : ∃ c t, b.reverse = c :: t ∧ isPySpaceChar c = false) :
    pyStripData (a ++ b) = a ++ b := by
  obtain ⟨c, t, rfl, hc⟩ := ha
  obtain ⟨d, u, hbr, hd⟩ := hb
  show ((List.dropWhile isPySpaceChar ((c :: t) ++ b)).reverse.dropWhile
    isPySpaceChar).reverse = (c :: t) ++ b
  rw [List.cons_append, dropWhile_cons_neg isPySpaceChar c (t ++ b) hc,
    ← List.cons_append, List.reverse_append, hbr, List.cons_append,
    dropWhile_cons_neg isPySpaceChar d _ hd,
    ← List.cons_append, ← hbr, ← List.reverse_append, List.reverse_reverse]

/-! ### Chunk II continued: searching a joined line list for a label -/

theorem isPre_nl_false (pat : List Char) (hne : pat ≠ []) (hp : noNewline pat = true)
    (z : List Char) : isPre pat ('\n' :: z) = false := by
  cases pat with
  | nil => exact absurd rfl hne
  | cons p ps =>
    simp only [noNewline, List.all_cons, Bool.and_eq_true, decide_eq_true_eq] at hp
    simp [isPre, hp.1]

theorem searchAfter_r_none (pat : List Char) (hne : pat ≠ []) (hp : noNewline pat = true)
    (r : List Char) (hr : r = [] ∨ r = ['\n']) : searchAfter pat r = none := by
  rcases hr with rfl | rfl
  · exact searchAfter_nil_of_ne pat hne
  · rw [searchAfter_cons_of_not_pre pat '\n' [] (isPre_nl_false pat hne hp [])]
    exact searchAfter_nil_of_ne pat hne

theorem searchAfter_skip_line (pat lit tokd z : List Char) (hne : pat ≠ [])
    (hp : noNewline pat = true)
    (hlit : litSkips pat lit = true) (htok : searchAfter pat tokd = none) :
    searchAfter pat (lit ++ (tokd ++ '\n' :: z)) = searchAfter pat z := by
  rw [searchAfter_skip_lit pat lit _ hlit]
  exact searchAfter_skip_text pat hp hne tokd htok z

theorem searchAfter_segs_none (pat : List Char) (hne : pat ≠ [])
    (hp : noNewline pat = true) (segs : List Seg)
    (hsk : ∀ sg ∈ segs, skipSeg pat sg) (r : List Char)
    (hr : r = [] ∨ ∃ z, r = '\n' :: z) :
    searchAfter pat (joinNl (segs.map segLineData) ++ r) = searchAfter pat r := by
  induction segs with
  | nil => simp [joinNl]
  | cons sg rest ih =>
    obtain ⟨h1, h2⟩ := hsk sg (by simp)
    cases rest with
    | nil =>
      show searchAfter pat ((sg.1 ++ sg.2.data) ++ r) = _
      rw [List.append_assoc, searchAfter_skip_lit pat sg.1 _ h1]
      rcases hr with rfl | ⟨z, rfl⟩
      · rw [List.append_nil, h2, searchAfter_nil_of_ne pat hne]
      · rw [searchAfter_skip_text pat hp hne sg.2.data h2 z,
          searchAfter_cons_of_not_pre pat '\n' z (isPre_nl_false pat hne hp z)]
    | cons sg2 rest2 =>
      rw [List.map_cons,
        joinNl_cons (segLineData sg) ((sg2 :: rest2).map segLineData) (by simp)]
      show searchAfter pat (((sg.1 ++ sg.2.data) ++ '\n' :: joinNl ((sg2 :: rest2).map segLineData)) ++ r) = _
      rw [List.append_assoc, List.append_assoc, List.cons_append,
        searchAfter_skip_line pat sg.1 sg.2.data _ hne hp h1 h2]
      exact ih (fun s hs => hsk s (List.mem_cons_of_mem sg hs))

theorem searchAfter_segs_hit (pat : List Char) (hne : pat ≠ [])
    (hp : noNewline pat = true) (skips : List Seg)
    (hsk : ∀ sg ∈ skips, skipSeg pat sg) (tok : String) (rest : List Seg)
    (r : List Char) :
    searchAfter pat (joinNl ((skips ++ ((pat ++ [' '], tok) : Seg) :: rest).map segLineData) ++ r)
      = some (' ' :: (tok.data ++ nlTail rest r)) := by
  induction skips with
  | nil =>
    rw [List.nil_append]
    cases rest with
    | nil =>
      show searchAfter pat (((pat ++ [' ']) ++ tok.data) ++ r) = _
      have h1 : ((pat ++ [' ']) ++ tok.data) ++ r = pat ++ (' ' :: (tok.data ++ nlTail [] r)) := by
        simp [nlTail]
      rw [h1, searchAfter_prefix]
    | cons sg2 rest2 =>
      rw [List.map_cons,
        joinNl_cons (segLineData (((pat ++ [' '], tok) : Seg))) ((sg2 :: rest2).map segLineData) (by simp)]
      show searchAfter pat (((pat ++ [' ']) ++ tok.data ++ '\n' :: joinNl ((sg2 :: rest2).map segLineData)) ++ r) = _
      have h1 : ((pat ++ [' ']) ++ tok.data ++ '\n' :: joinNl ((sg2 :: rest2).map segLineData)) ++ r
          = pat ++ (' ' :: (tok.data ++ nlTail (sg2 :: rest2) r)) := by
        simp [nlTail]
      rw [h1, searchAfter_prefix]
  | cons sg skips2 ih =>
    obtain ⟨h1, h2⟩ := hsk sg (by simp)
    rw [List.cons_append, List.map_cons,
      joinNl_cons (segLineData sg) ((skips2 ++ ((pat ++ [' '], tok) : Seg) :: rest).map segLineData) (by simp)]
    show searchAfter pat (((sg.1 ++ sg.2.data) ++ '\n' :: joinNl ((skips2 ++ ((pat ++ [' '], tok) : Seg) :: rest).map segLineData)) ++ r) = _
    rw [List.append_assoc, List.append_assoc, List.cons_append,
      searchAfter_skip_line pat sg.1 sg.2.data _ hne hp h1 h2]
    exact ih (fun s hs => hsk s (List.mem_cons_of_mem sg hs))

theorem nlTail_shape (rest : List Seg) (r : List Char)
    (hr : r = [] ∨ ∃ z, r = '\n' :: z) :
    nlTail rest r = [] ∨ ∃ z, nlTail rest r = '\n' :: z := by
  cases rest with
  | nil => exact hr
  | cons sg rest2 => exact Or.inr ⟨_, rfl⟩

theorem extract_clean_tok (tok : String) (htok : cleanTok tok = true)
    (tail : List Char) (ht : tail = [] ∨ ∃ z, tail = '\n' :: z) :
    List.takeWhile (fun c => decide (c ≠ '\n'))
      (List.dropWhile isPySpaceChar (' ' :: (tok.data ++ tail))) = tok.data := by
  have hsp : isPySpaceChar ' ' = true := by decide
  rw [List.dropWhile_cons, hsp]
  simp only [if_pos]
  obtain ⟨c, cs, hc, hcw⟩ := cleanTok_head tok htok
  rw [hc, List.cons_append, dropWhile_cons_neg isPySpaceChar c (cs ++ tail) hcw,
    ← List.cons_append, ← hc]
  have hall : ∀ x ∈ tok.data, (fun c => decide (c ≠ '\n')) x = true := by
    intro x hx
    exact ne_nl_of_not_lb x ((cleanTok_spec tok htok).2.2.1 x hx)
  rw [takeWhile_append_all _ tok.data tail hall]
  rcases ht with rfl | ⟨z, rfl⟩
  · simp
  · rw [List.takeWhile_cons]
    simp

theorem reSearchLabel_none_of (lab bl : String)
    (h : searchAfter lab.data bl.data = none) : reSearchLabel lab bl = none := by
  rw [reSearchLabel, h]

theorem reSearchLabel_some_of (lab bl tok : String) (tail : List Char)
    (h : searchAfter lab.data bl.data = some (' ' :: (tok.data ++ tail)))
    (htok : cleanTok tok = true) (ht : tail = [] ∨ ∃ z, tail = '\n' :: z) :
    reSearchLabel lab bl = some tok := by
  rw [reSearchLabel, h]
  refine congrArg some (mk_eq_of_data _ tok ?_)
  exact (extract_clean_tok tok htok tail ht).symm ▸ rfl

theorem skipSeg_pair (lab : String) (hmem : lab ∈ labelStrings) (lit : List Char)
    (hl : litSkips lab.data lit = true) (t : String) (ht : cleanTok t = true) :
    skipSeg lab.data (lit, t) := by
  refine ⟨hl, ?_⟩
  have hc := (cleanTok_spec t ht).2.2.2 lab hmem
  have : containsSub ⟨lab.data⟩ t = false := by
    rw [strEta lab]
    exact hc
  exact occursIn_false_none lab.data t this

theorem skipSeg_optSegL (lab : String) (hmem : lab ∈ labelStrings) (lit : List Char)
    (hl : litSkips lab.data lit = true) (o : Option String) (ho : optClean o = true) :
    ∀ sg ∈ optSegL lit o, skipSeg lab.data sg := by
  cases o with
  | none => simp [optSegL]
  | some t =>
    intro sg hsg
    simp only [optSegL, List.mem_singleton] at hsg
    subst hsg
    exact skipSeg_pair lab hmem lit hl t ho

/-! ### Chunk II end: `parseBlock` on well-formed chunks -/

theorem reSearchLabel_opt (lab : String) (hne : lab.data ≠ [])
    (hp : noNewline lab.data = true) (bl : String) (lit : List Char)
    (hlit : lit = lab.data ++ [' ']) (skips others : List Seg)
    (o : Option String) (ho : optClean o = true)
    (hsk : ∀ sg ∈ skips, skipSeg lab.data sg)
    (hoth : ∀ sg ∈ others, skipSeg lab.data sg)
    (r : List Char) (hr : r = [] ∨ r = ['\n'])
    (hbl : bl.data
      = joinNl ((skips ++ optSegL lit o ++ others).map segLineData) ++ r) :
    reSearchLabel lab bl = o := by
  have hr' : r = [] ∨ ∃ z, r = '\n' :: z := by
    rcases hr with rfl | rfl
    · exact Or.inl rfl
    · exact Or.inr ⟨[], rfl⟩
  cases o with
  | none =>
    apply reSearchLabel_none_of
    have hsk2 : ∀ sg ∈ skips ++ others, skipSeg lab.data sg := by
      intro sg hsg
      rcases List.mem_append.mp hsg with h | h
      · exact hsk sg h
      · exact hoth sg h
    rw [hbl]
    simp only [optSegL, List.append_nil]
    rw [searchAfter_segs_none lab.data hne hp (skips ++ others) hsk2 r hr']
    exact searchAfter_r_none lab.data hne hp r hr
  | some t =>
    refine reSearchLabel_some_of lab bl t (nlTail others r) ?_ ho (nlTail_shape others r hr')
    rw [hbl]
    simp only [optSegL]
    have hlist : skips ++ [((lit, t) : Seg)] ++ others
        = skips ++ ((lab.data ++ [' '], t) : Seg) :: others := by
      rw [hlit]
      simp
    rw [hlist]
    exact searchAfter_segs_hit lab.data hne hp skips hsk t others r

theorem mem_head_joinNl (x : List Char) (xs : List (List Char)) (c : Char)
    (hc : c ∈ x) : c ∈ joinNl (x :: xs) := by
  cases xs with
  | nil => exact hc
  | cons y ys =>
    rw [joinNl_cons x (y :: ys) (by simp)]
    exact List.mem_append_left _ hc

theorem parseBlock_wf (b : RawBlock) (hb : WFBlock b = true) (r : List Char)
    (hr : r = [] ∨ r = ['\n']) :
    parseBlock ⟨blockChars b ++ r⟩ = some (expectedItem b) := by
  obtain ⟨bi, bw, bf, bk⟩ := b
  have hWF : (cleanTok bi && (optClean bw && (optClean bf && optClean bk))) = true := by
    simpa [WFBlock, Bool.and_assoc] using hb
  simp only [Bool.and_eq_true] at hWF
  obtain ⟨hi, hw, hf, hk⟩ := hWF
  set b : RawBlock := ⟨bi, bw, bf, bk⟩ with hbDef
  set bl : String := ⟨blockChars b ++ r⟩ with hblDef
  have hdata : bl.data = blockChars b ++ r := rfl
  have hmemI : ("ISSUE:" : String) ∈ labelStrings := by simp [labelStrings]
  have hmemW : ("WHY:" : String) ∈ labelStrings := by simp [labelStrings]
  have hmemF : ("FIX:" : String) ∈ labelStrings := by simp [labelStrings]
  have hmemB : ("BLOCKER:" : String) ∈ labelStrings := by simp [labelStrings]
  have hIss : reSearchLabel "ISSUE:" bl = some bi := by
    refine reSearchLabel_opt "ISSUE:" (by decide) (by decide) bl "ISSUE: ".data (by decide) []
      (optSegL "WHY: ".data bw ++ optSegL "FIX: ".data bf ++ optSegL "BLOCKER: ".data bk)
      (some bi) hi (by simp) ?_ r hr ?_
    · intro sg hsg
      rcases List.mem_append.mp hsg with h | h
      · rcases List.mem_append.mp h with h2 | h2
        · exact skipSeg_optSegL "ISSUE:" hmemI "WHY: ".data (by decide) bw hw sg h2
        · exact skipSeg_optSegL "ISSUE:" hmemI "FIX: ".data (by decide) bf hf sg h2
      · exact skipSeg_optSegL "ISSUE:" hmemI "BLOCKER: ".data (by decide) bk hk sg h
    · rw [hdata]
      show joinNl ((segsOf b).map segLineData) ++ r = _
      have hsegs : segsOf b
          = [] ++ optSegL "ISSUE: ".data (some bi)
            ++ (optSegL "WHY: ".data bw ++ optSegL "FIX: ".data bf
              ++ optSegL "BLOCKER: ".data bk) := by
        show ("ISSUE: ".data, bi) :: _ = _
        simp [optSegL, List.append_assoc]
      rw [hsegs]
  have hWhy : reSearchLabel "WHY:" bl = bw := by
    refine reSearchLabel_opt "WHY:" (by decide) (by decide) bl "WHY: ".data (by decide)
      [("ISSUE: ".data, bi)]
      (optSegL "FIX: ".data bf ++ optSegL "BLOCKER: ".data bk)
      bw hw ?_ ?_ r hr ?_
    · intro sg hsg
      simp only [List.mem_singleton] at hsg
      subst hsg
      exact skipSeg_pair "WHY:" hmemW "ISSUE: ".data (by decide) bi hi
    · intro sg hsg
      rcases List.mem_append.mp hsg with h | h
      · exact skipSeg_optSegL "WHY:" hmemW "FIX: ".data (by decide) bf hf sg h
      · exact skipSeg_optSegL "WHY:" hmemW "BLOCKER: ".data (by decide) bk hk sg h
    · rw [hdata]
      show joinNl ((segsOf b).map segLineData) ++ r = _
      have hsegs : segsOf b
          = [(("ISSUE: ".data, bi) : Seg)] ++ optSegL "WHY: ".data bw
            ++ (optSegL "FIX: ".data bf ++ optSegL "BLOCKER: ".data bk) := by
        show ("ISSUE: ".data, bi) :: _ = _
        simp [List.append_assoc]
      rw [hsegs]
  have hFix : reSearchLabel "FIX:" bl = bf := by
    refine reSearchLabel_opt "FIX:" (by decide) (by decide) bl "FIX: ".data (by decide)
      (("ISSUE: ".data, bi) :: optSegL "WHY: ".data bw)
      (optSegL "BLOCKER: ".data bk)
      bf hf ?_ ?_ r hr ?_
    · intro sg hsg
      rcases List.mem_cons.mp hsg with h | h
      · subst h
        exact skipSeg_pair "FIX:" hmemF "ISSUE: ".data (by decide) bi hi
      · exact skipSeg_optSegL "FIX:" hmemF "WHY: ".data (by decide) bw hw sg h
    · intro sg hsg
      exact skipSeg_optSegL "FIX:" hmemF "BLOCKER: ".data (by decide) bk hk sg hsg
    · rw [hdata]
      show joinNl ((segsOf b).map segLineData) ++ r = _
      have hsegs : segsOf b
          = (("ISSUE: ".data, bi) :: optSegL "WHY: ".data bw)
            ++ optSegL "FIX: ".data bf ++ optSegL "BLOCKER: ".data bk := by
        show ("ISSUE: ".data, bi) :: _ = _
        simp [List.append_assoc]
      rw [hsegs]
  have hBlk : reSearchLabel "BLOCKER:" bl = bk := by
    refine reSearchLabel_opt "BLOCKER:" (by decide) (by decide) bl "BLOCKER: ".data (by decide)
      (("ISSUE: ".data, bi) :: (optSegL "WHY: ".data bw ++ optSegL "FIX: ".data bf))
      [] bk hk ?_ (by simp) r hr ?_
    · intro sg hsg
      rcases List.mem_cons.mp hsg with h | h
      · subst h
        exact skipSeg_pair "BLOCKER:" hmemB "ISSUE: ".data (by decide) bi hi
      · rcases List.mem_append.mp h with h2 | h2
        · exact skipSeg_optSegL "BLOCKER:" hmemB "WHY: ".data (by decide) bw hw sg h2
        · exact skipSeg_optSegL "BLOCKER:" hmemB "FIX: ".data (by decide) bf hf sg h2
    · rw [hdata]
      show joinNl ((segsOf b).map segLineData) ++ r = _
      have hsegs : segsOf b
          = (("ISSUE: ".data, bi) :: (optSegL "WHY: ".data bw ++ optSegL "FIX: ".data bf))
            ++ optSegL "BLOCKER: ".data bk ++ [] := by
        show ("ISSUE: ".data, bi) :: _ = _
        simp [List.append_assoc]
      rw [hsegs]
  have hneS : pyStrip bl ≠ "" := by
    apply pyStrip_mk_ne_empty (blockChars b ++ r) 'I'
    · apply List.mem_append_left
      show 'I' ∈ joinNl ((segsOf b).map segLineData)
      rw [segsOf, List.map_cons]
      apply mem_head_joinNl
      show 'I' ∈ "ISSUE: ".data ++ bi.data
      apply List.mem_append_left
      decide
    · decide
  show parseBlock bl = some (expectedItem b)
  simp only [parseBlock]
  rw [if_neg hneS, hIss, hWhy, hFix, hBlk, if_pos (by simp)]
  refine congrArg some ?_
  show _ = expectedItem ⟨bi, bw, bf, bk⟩
  simp only [expectedItem, FeedbackItem.mk.injEq, Option.getD_some]
  refine ⟨(cleanTok_spec bi hi).1, ?_, ?_, ?_⟩
  · cases bw with
    | none => rfl
    | some w => exact (cleanTok_spec w hw).1
  · cases bf with
    | none => rfl
    | some f => exact (cleanTok_spec f hf).1
  · cases bk with
    | none => decide
    | some k =>
      show pyStrip (pyLower (pyStrip k)) = pyStrip (pyLower k)
      rw [(cleanTok_spec k hk).1]

theorem parseBlock_pre (pre : List String) (hpre : ∀ l ∈ pre, cleanTok l = true)
    (r : List Char) (hr : r = [] ∨ r = ['\n']) :
    parseBlock ⟨joinNl (pre.map String.data) ++ r⟩ = none := by
  have hr' : r = [] ∨ ∃ z, r = '\n' :: z := by
    rcases hr with rfl | rfl
    · exact Or.inl rfl
    · exact Or.inr ⟨[], rfl⟩
  set bl : String := ⟨joinNl (pre.map String.data) ++ r⟩ with hblDef
  have hdata : bl.data
      = joinNl ((pre.map (fun l => (([], l) : Seg))).map segLineData) ++ r := by
    show joinNl (pre.map String.data) ++ r = _
    rw [List.map_map]
    rfl
  have hsk : ∀ lab : String, lab ∈ labelStrings →
      ∀ sg ∈ pre.map (fun l => (([], l) : Seg)), skipSeg lab.data sg := by
    intro lab hlab sg hsg
    obtain ⟨l, hl, rfl⟩ := List.mem_map.mp hsg
    exact skipSeg_pair lab hlab [] rfl l (hpre l hl)
  have hnone : ∀ lab : String, lab ∈ labelStrings → lab.data ≠ [] →
      noNewline lab.data = true → reSearchLabel lab bl = none := by
    intro lab hlab hne hnn
    apply reSearchLabel_none_of
    rw [hdata, searchAfter_segs_none lab.data hne hnn _ (hsk lab hlab) r hr']
    exact searchAfter_r_none lab.data hne hnn r hr
  by_cases hs : pyStrip bl = ""
  · simp [parseBlock, hs]
  · simp only [parseBlock]
    rw [if_neg hs, hnone "ISSUE:" (by simp [labelStrings]) (by decide) (by decide),
      hnone "WHY:" (by simp [labelStrings]) (by decide) (by decide),
      hnone "FIX:" (by simp [labelStrings]) (by decide) (by decide),
      hnone "BLOCKER:" (by simp [labelStrings]) (by decide) (by decide)]
    simp

/-! ### Chunk III: splitting a rendered critique into lines and blocks -/

theorem ne_nl_of_lb_false (c : Char) (h : isLineBreakChar c = false) : c ≠ '\n' := by
  intro hc
  subst hc
  exact absurd h (by decide)

set_option maxHeartbeats 1600000

theorem splitlinesAux_cons_other (c : Char) (cs acc : List Char)
    (hc : isLineBreakChar c = false) :
    splitlinesAux (c :: cs) acc = splitlinesAux cs (c :: acc) := by
  have hcr : c ≠ '\r' := by
    intro h
    subst h
    exact absurd hc (by decide)
  rw [splitlinesAux.eq_3 acc c cs (fun cs2 h1 _ => absurd h1 hcr), hc]
  simp

theorem splitlinesAux_nl (cs acc : List Char) :
    splitlinesAux ('\n' :: cs) acc = acc.reverse :: splitlinesAux cs [] := by
  rw [splitlinesAux.eq_3 acc '\n' cs (fun cs2 h1 _ => absurd h1 (by decide))]
  rw [if_pos (by decide)]

theorem splitlinesAux_line (x : List Char) (hx : ∀ c ∈ x, isLineBreakChar c = false)
    (cs acc : List Char) :
    splitlinesAux (x ++ cs) acc = splitlinesAux cs (x.reverse ++ acc) := by
  induction x generalizing acc with
  | nil => simp
  | cons c t ih =>
    rw [List.cons_append, splitlinesAux_cons_other c _ acc (hx c (by simp)),
      ih (fun d hd => hx d (by simp [hd])) (c :: acc)]
    congr 1
    simp

theorem splitlinesAux_lines (lines : List (List Char))
    (h : ∀ l ∈ lines, l ≠ [] ∧ ∀ c ∈ l, isLineBreakChar c = false)
    (hne : lines ≠ []) :
    splitlinesAux (joinNl lines) [] = lines := by
  induction lines with
  | nil => exact absurd rfl hne
  | cons l rest ih =>
    obtain ⟨hlne, hlnl⟩ := h l (by simp)
    cases rest with
    | nil =>
      show splitlinesAux l [] = [l]
      have h1 := splitlinesAux_line l hlnl [] []
      rw [List.append_nil, List.append_nil] at h1
      rw [h1, splitlinesAux.eq_1, if_neg (by simp [hlne]), List.reverse_reverse]
    | cons l2 rest2 =>
      rw [joinNl_cons l (l2 :: rest2) (by simp), splitlinesAux_line l hlnl _ [],
        List.append_nil, splitlinesAux_nl, List.reverse_reverse,
        ih (fun x hx => h x (by simp [hx])) (by simp)]

theorem pySplitlines_joinNl (L : List String)
    (h : ∀ l ∈ L, l.data ≠ [] ∧ ∀ c ∈ l.data, isLineBreakChar c = false)
    (hne : L ≠ []) :
    pySplitlines (pyJoin "\n" L) = L := by
  show (splitlinesAux (pyJoin "\n" L).data []).map (fun cs => (⟨cs⟩ : String)) = L
  rw [pyJoin_data, splitlinesAux_lines (L.map String.data) ?props ?pne]
  case props =>
    intro l hl
    obtain ⟨x, hx, rfl⟩ := List.mem_map.mp hl
    exact h x hx
  case pne =>
    cases L with
    | nil => exact absurd rfl hne
    | cons x xs => simp
  rw [List.map_map]
  have hcg : ∀ x ∈ L, ((fun cs => (⟨cs⟩ : String)) ∘ String.data) x = id x := by
    intro x hx
    exact strEta x
  rw [List.map_congr_left hcg, List.map_id]

theorem splitIssueAux_cons (c : Char) (rest acc : List Char) (atStart : Bool) :
    splitIssueAux (c :: rest) acc atStart
      = if atStart && isPre issueMarker (c :: rest) then
          acc.reverse :: splitIssueAux rest [c] false
        else splitIssueAux rest (c :: acc) (decide (c = '\n')) := rfl

theorem splitIssueAux_mid (xs : List Char) (hxs : ∀ c ∈ xs, c ≠ '\n')
    (cs acc : List Char) :
    splitIssueAux (xs ++ cs) acc false = splitIssueAux cs (xs.reverse ++ acc) false := by
  induction xs generalizing acc with
  | nil => simp
  | cons c t ih =>
    rw [List.cons_append, splitIssueAux_cons]
    rw [if_neg (by simp)]
    rw [show (decide (c = '\n')) = false from by simp [hxs c (by simp)]]
    rw [ih (fun d hd => hxs d (by simp [hd])) (c :: acc)]
    congr 1
    simp

theorem splitIssueAux_nl2 (cs acc : List Char) :
    splitIssueAux ('\n' :: cs) acc false = splitIssueAux cs ('\n' :: acc) true := by
  rw [splitIssueAux_cons, if_neg (by simp)]
  congr 1

theorem splitIssueAux_lines (lines : List (List Char))
    (hprops : ∀ l ∈ lines, l ≠ [] ∧ (∀ c ∈ l, c ≠ '\n') ∧ isPre issueMarker l = false)
    (cs acc : List Char) (hcs : cs = [] ∨ ∃ z, cs = '\n' :: z) (hlines : lines ≠ []) :
    splitIssueAux (joinNl lines ++ cs) acc true
      = splitIssueAux cs ((joinNl lines).reverse ++ acc) false := by
  induction lines generalizing acc with
  | nil => exact absurd rfl hlines
  | cons l rest ih =>
    obtain ⟨hlne, hlnl, hlpre⟩ := hprops l (by simp)
    obtain ⟨c, t, rfl⟩ := List.exists_cons_of_ne_nil hlne
    have hcnl : c ≠ '\n' := hlnl c (by simp)
    cases rest with
    | nil =>
      show splitIssueAux (c :: (t ++ cs)) acc true = _
      have hpre2 : isPre issueMarker (c :: (t ++ cs)) = false := by
        show isPre issueMarker ((c :: t) ++ cs) = false
        rcases hcs with rfl | ⟨z, rfl⟩
        · rw [List.append_nil]
          exact hlpre
        · rw [isPre_append_nl issueMarker (by decide) (c :: t) z]
          exact hlpre
      rw [splitIssueAux_cons, if_neg (by simp [hpre2])]
      rw [show (decide (c = '\n')) = false from by simp [hcnl]]
      rw [splitIssueAux_mid t (fun d hd => hlnl d (by simp [hd])) cs (c :: acc)]
      have hacc : t.reverse ++ (c :: acc) = (c :: t).reverse ++ acc := by simp
      rw [hacc]
      rfl
    | cons l2 rest2 =>
      rw [joinNl_cons (c :: t) (l2 :: rest2) (by simp)]
      have hshape : ((c :: t) ++ '\n' :: joinNl (l2 :: rest2)) ++ cs
          = c :: (t ++ ('\n' :: (joinNl (l2 :: rest2) ++ cs))) := by
        simp
      rw [hshape]
      have hpre2 : isPre issueMarker
          (c :: (t ++ ('\n' :: (joinNl (l2 :: rest2) ++ cs)))) = false := by
        show isPre issueMarker ((c :: t) ++ '\n' :: (joinNl (l2 :: rest2) ++ cs)) = false
        rw [isPre_append_nl issueMarker (by decide) (c :: t) (joinNl (l2 :: rest2) ++ cs)]
        exact hlpre
      rw [splitIssueAux_cons, if_neg (by simp [hpre2])]
      rw [show (decide (c = '\n')) = false from by simp [hcnl]]
      rw [splitIssueAux_mid t (fun d hd => hlnl d (by simp [hd]))
        ('\n' :: (joinNl (l2 :: rest2) ++ cs)) (c :: acc)]
      rw [splitIssueAux_nl2]
      rw [ih (fun x hx => hprops x (by simp [hx])) ('\n' :: (t.reverse ++ (c :: acc))) (by simp)]
      congr 1
      simp

theorem labLine_props (lit : List Char) (hlit1 : lit ≠ [])
    (hlit2 : ∀ c ∈ lit, c ≠ '\n') (hlit3 : mismatchIn issueMarker lit = true)
    (t : String) (ht : cleanTok t = true) :
    (lit ++ t.data) ≠ [] ∧ (∀ c ∈ lit ++ t.data, c ≠ '\n') ∧
      isPre issueMarker (lit ++ t.data) = false := by
  refine ⟨by simp [hlit1], ?_, isPre_false_of_mismatchIn issueMarker lit t.data hlit3⟩
  intro c hc
  rcases List.mem_append.mp hc with h | h
  · exact hlit2 c h
  · exact ne_nl_of_lb_false c ((cleanTok_spec t ht).2.2.1 c h)

theorem tailSegs_line_props (bw bf bk : Option String) (hw : optClean bw = true)
    (hf : optClean bf = true) (hk : optClean bk = true) :
    ∀ l ∈ (optSegL "WHY: ".data bw ++ optSegL "FIX: ".data bf
        ++ optSegL "BLOCKER: ".data bk).map segLineData,
      l ≠ [] ∧ (∀ c ∈ l, c ≠ '\n') ∧ isPre issueMarker l = false := by
  intro l hl
  obtain ⟨sg, hsg, rfl⟩ := List.mem_map.mp hl
  rcases List.mem_append.mp hsg with h | h
  · rcases List.mem_append.mp h with h2 | h2
    · cases bw with
      | none => simp [optSegL] at h2
      | some w =>
        simp only [optSegL, List.mem_singleton] at h2
        subst h2
        exact labLine_props "WHY: ".data (by decide) (by decide) (by decide) w hw
    · cases bf with
      | none => simp [optSegL] at h2
      | some f =>
        simp only [optSegL, List.mem_singleton] at h2
        subst h2
        exact labLine_props "FIX: ".data (by decide) (by decide) (by decide) f hf
  · cases bk with
    | none => simp [optSegL] at h
    | some k =>
      simp only [optSegL, List.mem_singleton] at h
      subst h
      exact labLine_props "BLOCKER: ".data (by decide) (by decide) (by decide) k hk

theorem splitIssueAux_segBlock (bi : String) (hi : cleanTok bi = true)
    (tail : List Seg)
    (htail : ∀ l ∈ tail.map segLineData,
      l ≠ [] ∧ (∀ c ∈ l, c ≠ '\n') ∧ isPre issueMarker l = false)
    (cs acc : List Char) (hcs : cs = [] ∨ ∃ z, cs = '\n' :: z) :
    splitIssueAux (joinNl (((("ISSUE: ".data, bi) : Seg) :: tail).map segLineData) ++ cs) acc true
      = acc.reverse
        :: splitIssueAux cs
            ((joinNl (((("ISSUE: ".data, bi) : Seg) :: tail).map segLineData)).reverse) false := by
  have hbinl : ∀ c ∈ bi.data, c ≠ '\n' := by
    intro c hc
    exact ne_nl_of_lb_false c ((cleanTok_spec bi hi).2.2.1 c hc)
  have hpreI : ∀ Y : List Char, isPre issueMarker ("ISSUE: ".data ++ Y) = true := by
    intro Y
    rw [show "ISSUE: ".data ++ Y = issueMarker ++ (' ' :: Y) from rfl]
    exact isPre_append_self issueMarker (' ' :: Y)
  rw [List.map_cons, show segLineData (("ISSUE: ".data, bi) : Seg)
    = "ISSUE: ".data ++ bi.data from rfl]
  cases tail with
  | nil =>
    show splitIssueAux (("ISSUE: ".data ++ bi.data) ++ cs) acc true
      = acc.reverse :: splitIssueAux cs ("ISSUE: ".data ++ bi.data).reverse false
    have hsh : ("ISSUE: ".data ++ bi.data) ++ cs
        = 'I' :: ("SSUE: ".data ++ (bi.data ++ cs)) := by
      rw [List.append_assoc]
      rfl
    rw [hsh, splitIssueAux_cons,
      if_pos (by rw [Bool.true_and]; exact hpreI (bi.data ++ cs))]
    rw [splitIssueAux_mid "SSUE: ".data (by decide) (bi.data ++ cs) ['I'],
      splitIssueAux_mid bi.data hbinl cs _]
    have hrev : ("ISSUE: ".data ++ bi.data).reverse
        = bi.data.reverse ++ ("SSUE: ".data.reverse ++ ['I']) := by
      rw [List.reverse_append,
        show ("ISSUE: ".data).reverse = "SSUE: ".data.reverse ++ ['I'] from by decide]
    rw [hrev]
  | cons sg2 rest2 =>
    rw [joinNl_cons ("ISSUE: ".data ++ bi.data) ((sg2 :: rest2).map segLineData) (by simp)]
    have hsh : (("ISSUE: ".data ++ bi.data)
          ++ '\n' :: joinNl ((sg2 :: rest2).map segLineData)) ++ cs
        = 'I' :: ("SSUE: ".data
            ++ (bi.data ++ ('\n' :: (joinNl ((sg2 :: rest2).map segLineData) ++ cs)))) := by
      rw [List.append_assoc]
      rfl
    rw [hsh, splitIssueAux_cons,
      if_pos (by rw [Bool.true_and]; exact hpreI _)]
    rw [splitIssueAux_mid "SSUE: ".data (by decide) _ ['I'],
      splitIssueAux_mid bi.data hbinl _ _,
      splitIssueAux_nl2,
      splitIssueAux_lines ((sg2 :: rest2).map segLineData) htail cs _ hcs (by simp)]
    have hrev : (("ISSUE: ".data ++ bi.data)
          ++ '\n' :: joinNl ((sg2 :: rest2).map segLineData)).reverse
        = (joinNl ((sg2 :: rest2).map segLineData)).reverse
            ++ ('\n' :: (bi.data.reverse ++ ("SSUE: ".data.reverse ++ ['I']))) := by
      rw [List.reverse_append, List.reverse_cons, List.reverse_append,
        show ("ISSUE: ".data).reverse = "SSUE: ".data.reverse ++ ['I'] from by decide]
      simp
    rw [hrev]

theorem occursIn_of_isPre (pat s : List Char) (h : isPre pat s = true) :
    occursIn pat s = true := by
  cases s with
  | nil =>
    show (searchAfter pat []).isSome = true
    rw [searchAfter, if_pos h]
    rfl
  | cons c t =>
    show (searchAfter pat (c :: t)).isSome = true
    rw [searchAfter, if_pos h]
    rfl

theorem preLine_props (l : String) (hl : cleanTok l = true) :
    l.data ≠ [] ∧ (∀ c ∈ l.data, c ≠ '\n') ∧ isPre issueMarker l.data = false := by
  obtain ⟨h1, h2, h3, h4⟩ := cleanTok_spec l hl
  refine ⟨data_ne_nil l h2, fun c hc => ne_nl_of_lb_false c (h3 c hc), ?_⟩
  cases hp : isPre issueMarker l.data with
  | false => rfl
  | true =>
    have hocc : occursIn issueMarker l.data = true := occursIn_of_isPre _ _ hp
    have hcon : containsSub "ISSUE:" l = false := h4 "ISSUE:" (by simp [labelStrings])
    rw [show containsSub "ISSUE:" l = occursIn issueMarker l.data from rfl] at hcon
    rw [hocc] at hcon
    cases hcon

theorem splitIssueAux_blockChars (b : RawBlock) (hb : WFBlock b = true)
    (cs acc : List Char) (hcs : cs = [] ∨ ∃ z, cs = '\n' :: z) :
    splitIssueAux (blockChars b ++ cs) acc true
      = acc.reverse :: splitIssueAux cs ((blockChars b).reverse) false := by
  obtain ⟨bi, bw, bf, bk⟩ := b
  have hWF : (cleanTok bi && (optClean bw && (optClean bf && optClean bk))) = true := by
    simpa [WFBlock, Bool.and_assoc] using hb
  simp only [Bool.and_eq_true] at hWF
  obtain ⟨hi, hw, hf, hk⟩ := hWF
  exact splitIssueAux_segBlock bi hi
    (optSegL "WHY: ".data bw ++ optSegL "FIX: ".data bf ++ optSegL "BLOCKER: ".data bk)
    (tailSegs_line_props bw bf bk hw hf hk) cs acc hcs

theorem splitIssueAux_blocks (bs : List RawBlock) (h : ∀ b ∈ bs, WFBlock b = true)
    (hbs : bs ≠ []) (acc : List Char) :
    splitIssueAux (joinNl (bs.map blockChars)) acc true = acc.reverse :: chunkList bs := by
  induction bs generalizing acc with
  | nil => exact absurd rfl hbs
  | cons b rest ih =>
    cases rest with
    | nil =>
      show splitIssueAux (blockChars b) acc true = acc.reverse :: chunkList [b]
      have h1 := splitIssueAux_blockChars b (h b (by simp)) [] acc (Or.inl rfl)
      rw [List.append_nil] at h1
      rw [h1]
      show acc.reverse :: [(blockChars b).reverse.reverse] = _
      rw [List.reverse_reverse]
      rfl
    | cons b2 rest2 =>
      rw [List.map_cons, joinNl_cons (blockChars b) ((b2 :: rest2).map blockChars) (by simp)]
      rw [splitIssueAux_blockChars b (h b (by simp))
        ('\n' :: joinNl ((b2 :: rest2).map blockChars)) acc (Or.inr ⟨_, rfl⟩)]
      rw [splitIssueAux_nl2]
      rw [ih (fun x hx => h x (by simp [hx])) (by simp) ('\n' :: (blockChars b).reverse)]
      congr 1
      rw [show chunkList (b :: b2 :: rest2)
        = (blockChars b ++ ['\n']) :: chunkList (b2 :: rest2) from rfl]
      congr 1
      simp

theorem mem_joinNl (x : List Char) (ls : List (List Char)) (hx : x ∈ ls) (c : Char)
    (hc : c ∈ x) : c ∈ joinNl ls := by
  induction ls with
  | nil => cases hx
  | cons y ys ih =>
    rcases List.mem_cons.mp hx with rfl | hm
    · exact mem_head_joinNl x ys c hc
    · cases ys with
      | nil => cases hm
      | cons z zs =>
        rw [joinNl_cons y (z :: zs) (by simp)]
        apply List.mem_append_right
        exact List.mem_cons_of_mem '\n' (ih hm)

/-! ### Chunk IV: assembling `parse_feedback` on rendered critiques -/

theorem map_join_eq {α β : Type} (f : α → β) (ls : List (List α)) :
    ls.join.map f = (ls.map (List.map f)).join := by
  induction ls with
  | nil => rfl
  | cons x xs ih => rw [join_cons_eq, List.map_append, ih, List.map_cons, join_cons_eq]

theorem renderBlockLines_data (b : RawBlock) :
    (renderBlockLines b).map String.data = (segsOf b).map segLineData := by
  obtain ⟨bi, bw, bf, bk⟩ := b
  cases bw <;> cases bf <;> cases bk <;>
    simp [renderBlockLines, segsOf, optLabelLine, optSegL, segLineData, String.data_append]

theorem flat_data (bs : List RawBlock) :
    joinNl (((bs.map renderBlockLines).join).map String.data) = joinNl (bs.map blockChars) := by
  rw [map_join_eq, List.map_map]
  have h1 : (bs.map (List.map String.data ∘ renderBlockLines))
      = bs.map (fun b => (segsOf b).map segLineData) :=
    List.map_congr_left (fun b _ => renderBlockLines_data b)
  rw [h1, joinNl_flatten _ (fun l hl => ?ne), List.map_map]
  case ne =>
    obtain ⟨b, _, rfl⟩ := List.mem_map.mp hl
    simp [segsOf]
  rfl

theorem renderCritique_data (pre : List String) (bs : List RawBlock) :
    (renderCritique pre bs).data
      = joinNl ((pre ++ (bs.map renderBlockLines).join).map String.data) :=
  pyJoin_data _

theorem WFBlock_spec (b : RawBlock) (hb : WFBlock b = true) :
    cleanTok b.issue = true ∧ optClean b.why = true ∧ optClean b.fix = true ∧
      optClean b.blocker = true := by
  have hWF : (cleanTok b.issue
      && (optClean b.why && (optClean b.fix && optClean b.blocker))) = true := by
    simpa [WFBlock, Bool.and_assoc] using hb
  simp only [Bool.and_eq_true] at hWF
  exact ⟨hWF.1, hWF.2.1, hWF.2.2.1, hWF.2.2.2⟩

theorem labelLine_facts (lab : String)
    (hh : ∃ c u, lab.data = c :: u ∧ isPySpaceChar c = false)
    (hnl : ∀ c ∈ lab.data, isLineBreakChar c = false)
    (t : String) (ht : cleanTok t = true) :
    pyStrip (lab ++ t) = lab ++ t ∧ (lab ++ t) ≠ "" ∧
      ∀ c ∈ (lab ++ t).data, isLineBreakChar c = false := by
  have hdata : (lab ++ t).data = lab.data ++ t.data := String.data_append lab t
  refine ⟨?_, ?_, ?_⟩
  · have hfix : pyStripData ((lab ++ t).data) = (lab ++ t).data := by
      rw [hdata]
      exact pyStripData_append_of lab.data t.data hh (cleanTok_last t ht)
    exact mk_eq_of_data _ _ hfix
  · intro h
    have h2 := congrArg String.data h
    rw [hdata] at h2
    obtain ⟨c, u, hc, _⟩ := hh
    rw [hc] at h2
    cases h2
  · intro c hc
    rw [hdata] at hc
    rcases List.mem_append.mp hc with h | h
    · exact hnl c h
    · exact (cleanTok_spec t ht).2.2.1 c h

theorem renderLines_facts (pre : List String) (bs : List RawBlock)
    (hpre : ∀ l ∈ pre, cleanTok l = true) (hbs : ∀ b ∈ bs, WFBlock b = true) :
    ∀ l ∈ pre ++ (bs.map renderBlockLines).join,
      pyStrip l = l ∧ l ≠ "" ∧ l.data ≠ [] ∧
        ∀ c ∈ l.data, isLineBreakChar c = false := by
  intro l hl
  have main : pyStrip l = l ∧ l ≠ "" ∧ ∀ c ∈ l.data, isLineBreakChar c = false := by
    rcases List.mem_append.mp hl with h | h
    · obtain ⟨h1, h2, h3, _⟩ := cleanTok_spec l (hpre l h)
      exact ⟨h1, h2, h3⟩
    · obtain ⟨lines, hlines, hmem⟩ := List.mem_join.mp h
      obtain ⟨b, hbmem, rfl⟩ := List.mem_map.mp hlines
      obtain ⟨hi, hw, hf, hk⟩ := WFBlock_spec b (hbs b hbmem)
      rcases List.mem_cons.mp hmem with rfl | h2
      · exact labelLine_facts "ISSUE: " ⟨'I', "SSUE: ".data, by decide, by decide⟩
          (by decide) b.issue hi
      · rcases List.mem_append.mp h2 with h3 | h3
        · rcases List.mem_append.mp h3 with h4 | h4
          · cases hwo : b.why with
            | none => rw [hwo] at h4; cases h4
            | some w =>
              rw [hwo] at h4 hw
              simp only [optLabelLine, List.mem_singleton] at h4
              subst h4
              exact labelLine_facts "WHY: " ⟨'W', "HY: ".data, by decide, by decide⟩
                (by decide) w hw
          · cases hfo : b.fix with
            | none => rw [hfo] at h4; cases h4
            | some f =>
              rw [hfo] at h4 hf
              simp only [optLabelLine, List.mem_singleton] at h4
              subst h4
              exact labelLine_facts "FIX: " ⟨'F', "IX: ".data, by decide, by decide⟩
                (by decide) f hf
        · cases hko : b.blocker with
          | none => rw [hko] at h3; cases h3
          | some k =>
            rw [hko] at h3 hk
            simp only [optLabelLine, List.mem_singleton] at h3
            subst h3
            exact labelLine_facts "BLOCKER: " ⟨'B', "LOCKER: ".data, by decide, by decide⟩
              (by decide) k hk
  exact ⟨main.1, main.2.1, data_ne_nil l main.2.1, main.2.2⟩

theorem linesFix (pre : List String) (bs : List RawBlock)
    (hpre : ∀ l ∈ pre, cleanTok l = true) (hbs : ∀ b ∈ bs, WFBlock b = true)
    (hne : pre ++ (bs.map renderBlockLines).join ≠ []) :
    ((pySplitlines (renderCritique pre bs)).filter (fun l => pyStrip l ≠ "")).map pyStrip
      = pre ++ (bs.map renderBlockLines).join := by
  have hfacts := renderLines_facts pre bs hpre hbs
  have hsplit : pySplitlines (renderCritique pre bs)
      = pre ++ (bs.map renderBlockLines).join := by
    show pySplitlines (pyJoin "\n" (pre ++ (bs.map renderBlockLines).join)) = _
    exact pySplitlines_joinNl _ (fun l hl => ⟨(hfacts l hl).2.2.1, (hfacts l hl).2.2.2⟩) hne
  rw [hsplit]
  rw [List.filter_eq_self.mpr (fun a ha => by simp [(hfacts a ha).1, (hfacts a ha).2.1])]
  have hmap : (pre ++ (bs.map renderBlockLines).join).map pyStrip
      = (pre ++ (bs.map renderBlockLines).join).map id :=
    List.map_congr_left (fun a ha => (hfacts a ha).1)
  rw [hmap, List.map_id]

theorem filterMap_chunkList (bs : List RawBlock) (hbs : ∀ b ∈ bs, WFBlock b = true) :
    ((chunkList bs).map (fun cs => (⟨cs⟩ : String))).filterMap parseBlock
      = bs.map expectedItem := by
  induction bs with
  | nil => rfl
  | cons b rest ih =>
    cases rest with
    | nil =>
      show List.filterMap parseBlock [⟨blockChars b⟩] = [expectedItem b]
      have h1 := parseBlock_wf b (hbs b (by simp)) [] (Or.inl rfl)
      rw [List.append_nil] at h1
      simp [List.filterMap_cons, h1]
    | cons b2 rest2 =>
      show List.filterMap parseBlock
        (⟨blockChars b ++ ['\n']⟩ :: (chunkList (b2 :: rest2)).map (fun cs => (⟨cs⟩ : String)))
        = expectedItem b :: (b2 :: rest2).map expectedItem
      have h1 := parseBlock_wf b (hbs b (by simp)) ['\n'] (Or.inr rfl)
      rw [List.filterMap_cons, h1, ih (fun x hx => hbs x (by simp [hx]))]

theorem splitIssue_pre_only (pre : List String) (hpre : ∀ l ∈ pre, cleanTok l = true)
    (hpne : pre ≠ []) :
    splitIssueAux (joinNl (pre.map String.data)) [] true
      = [joinNl (pre.map String.data)] := by
  have h1 := splitIssueAux_lines (pre.map String.data)
    (fun l hl => by
      obtain ⟨x, hx, rfl⟩ := List.mem_map.mp hl
      exact preLine_props x (hpre x hx)) [] [] (Or.inl rfl) (by simp [hpne])
  rw [List.append_nil] at h1
  rw [h1, List.append_nil]
  show [(joinNl (pre.map String.data)).reverse.reverse] = _
  rw [List.reverse_reverse]

theorem mem_I_text (pre : List String) (b : RawBlock) (bs2 : List RawBlock) :
    'I' ∈ (renderCritique pre (b :: bs2)).data := by
  rw [renderCritique_data]
  apply mem_joinNl ("ISSUE: " ++ b.issue).data
  · apply List.mem_map_of_mem
    apply List.mem_append_right
    apply List.mem_join.mpr
    exact ⟨renderBlockLines b, List.mem_map_of_mem _ (by simp), by simp [renderBlockLines]⟩
  · rw [String.data_append]
    exact List.mem_append_left _ (by decide)

theorem text_not_sentinel (pre : List String) (b : RawBlock) (bs2 : List RawBlock) :
    ¬(renderCritique pre (b :: bs2) = ""
      ∨ pyStrip (renderCritique pre (b :: bs2)) = "STATUS: OK") := by
  intro h
  have hI := mem_I_text pre b bs2
  rcases h with h | h
  · rw [h] at hI
    cases hI
  · have hd : pyStripData (renderCritique pre (b :: bs2)).data = "STATUS: OK".data :=
      congrArg String.data h
    obtain ⟨a, bb, hcs, ha, hb2⟩ := pyStripData_decomp (renderCritique pre (b :: bs2)).data
    rw [hd] at hcs
    rw [hcs] at hI
    rcases List.mem_append.mp hI with h2 | h2
    · rcases List.mem_append.mp h2 with h3 | h3
      · have := ha 'I' h3
        cases this
      · revert h3
        decide
    · have := hb2 'I' h2
      cases this

theorem splitAtIssue_eq (s : String) :
    splitAtIssue s = (splitIssueAux s.data [] true).map (fun cs => (⟨cs⟩ : String)) := rfl

theorem parse_feedback_render (pre : List String) (bs : List RawBlock)
    (hpre : ∀ l ∈ pre, cleanTok l = true) (hbs : ∀ b ∈ bs, WFBlock b = true) :
    parse_feedback (renderCritique pre bs) = bs.map expectedItem := by
  cases bs with
  | nil =>
    cases pre with
    | nil => decide
    | cons p pre2 =>
      show parse_feedback (renderCritique (p :: pre2) []) = []
      simp only [parse_feedback]
      split
      · rfl
      · rw [linesFix (p :: pre2) [] hpre hbs (by simp)]
        rw [show ((([] : List RawBlock).map renderBlockLines).join) = ([] : List String)
          from rfl, List.append_nil]
        rw [splitAtIssue_eq, pyJoin_data, splitIssue_pre_only (p :: pre2) hpre (by simp)]
        have h1 := parseBlock_pre (p :: pre2) hpre [] (Or.inl rfl)
        rw [List.append_nil, List.map_cons] at h1
        simp [List.filterMap_cons, h1]
  | cons b bs2 =>
    have hjoin : (((b :: bs2).map renderBlockLines).join) ≠ [] := by
      rw [List.map_cons, join_cons_eq]
      simp [renderBlockLines]
    simp only [parse_feedback]
    split
    · next hcond =>
      exfalso
      exact text_not_sentinel pre b bs2 (by simpa using hcond)
    · rw [linesFix pre (b :: bs2) hpre hbs
        (fun h => hjoin (List.append_eq_nil.mp h).2)]
      rw [splitAtIssue_eq, pyJoin_data]
      cases pre with
      | nil =>
        rw [List.nil_append, flat_data (b :: bs2)]
        rw [splitIssueAux_blocks (b :: bs2) hbs (by simp) []]
        rw [show (([] : List Char)).reverse = ([] : List Char) from rfl]
        rw [List.map_cons, List.filterMap_cons]
        rw [show parseBlock ⟨([] : List Char)⟩ = none from by decide]
        exact filterMap_chunkList (b :: bs2) hbs
      | cons p pre2 =>
        rw [List.map_append]
        rw [joinNl_append ((p :: pre2).map String.data)
          ((((b :: bs2).map renderBlockLines).join).map String.data) (by simp)
          (by simpa using hjoin)]
        rw [flat_data (b :: bs2)]
        rw [splitIssueAux_lines ((p :: pre2).map String.data)
          (fun l hl => by
            obtain ⟨x, hx, rfl⟩ := List.mem_map.mp hl
            exact preLine_props x (hpre x hx))
          ('\n' :: joinNl ((b :: bs2).map blockChars)) [] (Or.inr ⟨_, rfl⟩) (by simp)]
        rw [splitIssueAux_nl2]
        rw [splitIssueAux_blocks (b :: bs2) hbs (by simp)
          ('\n' :: ((joinNl ((p :: pre2).map String.data)).reverse ++ []))]
        rw [show ('\n' :: ((joinNl ((p :: pre2).map String.data)).reverse ++ [])).reverse
            = joinNl ((p :: pre2).map String.data) ++ ['\n'] from by simp]
        rw [List.map_cons, List.filterMap_cons]
        rw [parseBlock_pre (p :: pre2) hpre ['\n'] (Or.inr rfl)]
        exact filterMap_chunkList (b :: bs2) hbs

/-- **Claim C5.** `_parse_feedback` returns the empty list on the empty input and
on the exact sentinel `STATUS: OK`; and on every well-formed critique — an
optional label-free preamble followed by blocks, each an `ISSUE:` line with
optional `WHY:`/`FIX:`/`BLOCKER:` lines over clean single-line tokens — it
returns exactly one item per block, in order, where an absent `WHY:`/`FIX:`
yields the empty string and an absent `BLOCKER:` defaults to `no`, while the
preamble (a chunk matching no label) contributes no item. -/
theorem c5_parse_feedback_wellformed (pre : List String) (bs : List RawBlock)
    (hpre : ∀ l ∈ pre, cleanTok l = true) (hbs : ∀ b ∈ bs, WFBlock b = true) :
    parse_feedback "" = [] ∧ parse_feedback "STATUS: OK" = [] ∧
      parse_feedback (renderCritique pre bs) = bs.map expectedItem ∧
      (parse_feedback (renderCritique pre bs)).length = bs.length := by
  refine ⟨by decide, by decide, parse_feedback_render pre bs hpre hbs, ?_⟩
  rw [parse_feedback_render pre bs hpre hbs, List.length_map]

/-- Witness for C5 at a concrete preamble and two concrete blocks. -/
theorem c5_witness :
    (∀ l ∈ preW, cleanTok l = true) ∧ (∀ b ∈ bsW, WFBlock b = true) ∧
      (parse_feedback "" = [] ∧ parse_feedback "STATUS: OK" = [] ∧
        parse_feedback (renderCritique preW bsW) = bsW.map expectedItem ∧
        (parse_feedback (renderCritique preW bsW)).length = bsW.length) :=
  ⟨by decide, by decide,
    c5_parse_feedback_wellformed preW bsW (by decide) (by decide)⟩

end SopGen
